import Mathlib

/-! # go-athena: the value decoder of `value.go`

A shallow embedding of `convertValue` and of the three row adapters
`convertRow`, `convertRowFromTableInfo` and `convertRowFromCsv`, followed by
the properties of the decoder that the specification states.

Modelling conventions.

* A Go `string` is a sequence of bytes: `GoString := List UInt8`.  `len` is
  `List.length`, the slice `s[:k]` is `List.take k`, `==` is list equality.
  Source literals are written `lit "..."`, the UTF-8 bytes of the literal.
* A `*string` is an `Option GoString`; the nil pointer is `none`.
* A Go function returning `(interface{}, error)` returns both components, and
  both may be set at once (`strconv.ParseInt` returns a clamped number next
  to a range error).  `Result.ret v err` keeps the two; `Result.panic` is the
  `panic(...)` exit.
* `strconv.ParseInt` is modelled from the Go standard library (`atoi.go`) at
  base 10, the only base `convertValue` passes; unsigned 64-bit arithmetic is
  `Nat` arithmetic with explicit `% 2^64`.
* `strconv.ParseFloat` and `time.Parse` are not part of `value.go`; the code
  is embedded over an arbitrary implementation of them (`Stdlib`).  For the
  claims about dates and timestamps, `time.Parse` is modelled from the Go
  standard library on the three layouts `value.go` passes, with the host's
  zone data as a parameter (`goLib`).
-/

namespace Athena

/-- A Go string: an immutable sequence of bytes. -/
abbrev GoString := List UInt8

/-- The bytes of a source-code string literal. -/
def lit (s : String) : GoString := s.toUTF8.data.toList

/-! ## `strconv` -/

namespace strconv

/-- The error wrapped in a `*strconv.NumError` (its field `Err`). -/
inductive ErrKind where
  /-- Is `strconv.ErrSyntax`: invalid syntax. -/
  | ErrSyntax
  /-- Is `strconv.ErrRange`: value out of range. -/
  | ErrRange
  /-- Is the error of `bitSizeError`: invalid bit size. -/
  | ErrBitSize (bitSize : Nat)
  deriving DecidableEq, Repr

/-- The Go type `strconv.NumError`. -/
structure NumError where
  /-- The failing function (`ParseInt`, `ParseUint`, `ParseFloat`). -/
  Func : GoString
  /-- The input text. -/
  Num : GoString
  /-- The reason the conversion failed. -/
  Err : ErrKind
  deriving DecidableEq, Repr

def fnParseUint : GoString := lit "ParseUint"

def fnParseInt : GoString := lit "ParseInt"

def syntaxError (fn str : GoString) : NumError := ⟨fn, str, .ErrSyntax⟩

def rangeError (fn str : GoString) : NumError := ⟨fn, str, .ErrRange⟩

def bitSizeError (fn str : GoString) (bitSize : Nat) : NumError :=
  ⟨fn, str, .ErrBitSize bitSize⟩

/-- The constant `strconv.IntSize` (64-bit platform). -/
def IntSize : Nat := 64

def maxUint64 : Nat := 2 ^ 64 - 1

/-- Go's `lower(c) = c | ('x' - 'X')` on a byte. -/
def lower (c : Nat) : Nat := c ||| 32

/-- The digit loop of `strconv.ParseUint` at `base = 10`
(`for _, c := range []byte(s)`), started with accumulator `n`.  On a range
error the loop returns `maxVal` at once, without reading the remaining
bytes.  The underscore case needs `base == 0` and is unreachable here. -/
def parseUintLoop (cutoff maxVal : Nat) : List UInt8 → Nat → Nat × Option ErrKind
  | [], n => (n, none)
  | b :: rest, n =>
    let c := b.toNat
    let digit : Option Nat :=
      if 48 ≤ c ∧ c ≤ 57 then some (c - 48)
      else if 97 ≤ lower c ∧ lower c ≤ 122 then some (lower c - 97 + 10)
      else none
    match digit with
    | none => (0, some .ErrSyntax)
    | some d =>
      if d ≥ 10 then (0, some .ErrSyntax)
      else if n ≥ cutoff then (maxVal, some .ErrRange)
      else
        let n10 := (n * 10) % 2 ^ 64
        let n1 := (n10 + d) % 2 ^ 64
        if n1 < n10 ∨ n1 > maxVal then (maxVal, some .ErrRange)
        else parseUintLoop cutoff maxVal rest n1

/-- The Go function `strconv.ParseUint(s, 10, bitSize)`. -/
def ParseUint (s : GoString) (bitSize : Nat) : Nat × Option NumError :=
  if s = [] then (0, some (syntaxError fnParseUint s))
  else if bitSize ≠ 0 ∧ bitSize > 64 then (0, some (bitSizeError fnParseUint s bitSize))
  else
    let bitSize := if bitSize = 0 then IntSize else bitSize
    let cutoff := maxUint64 / 10 + 1
    let maxVal := (2 ^ bitSize % 2 ^ 64 + 2 ^ 64 - 1) % 2 ^ 64
    match parseUintLoop cutoff maxVal s 0 with
    | (n, none) => (n, none)
    | (n, some k) => (n, some ⟨fnParseUint, s, k⟩)

/-- The conversion `int64(u)` of a `uint64`. -/
def int64OfUint64 (u : Nat) : Int :=
  if u % 2 ^ 64 < 2 ^ 63 then (u % 2 ^ 64 : Nat) else (u % 2 ^ 64 : Nat) - 2 ^ 64

/-- Unary minus on `int64` (wraps at the minimum). -/
def negInt64 (n : Int) : Int := (-n + 2 ^ 63) % 2 ^ 64 - 2 ^ 63

/-- The Go function `strconv.ParseInt(s, 10, bitSize)`.  The first component
is the `int64` returned, also next to an error (`0` on a syntax error, the
nearest bound on a range error). -/
def ParseInt (s : GoString) (bitSize : Nat) : Int × Option NumError :=
  match s with
  | [] => (0, some (syntaxError fnParseInt s))
  | b :: t =>
    let s0 := s
    let signed : Bool × GoString :=
      if b = 43 then (false, t)
      else if b = 45 then (true, t)
      else (false, s)
    let neg := signed.1
    let un := (ParseUint signed.2 bitSize).1
    let err := (ParseUint signed.2 bitSize).2
    match err.filter (fun e => e.Err ≠ .ErrRange) with
    | some e => (0, some { e with Func := fnParseInt, Num := s0 })
    | none =>
      let bitSize := if bitSize = 0 then IntSize else bitSize
      let cutoff := 2 ^ (bitSize - 1) % 2 ^ 64
      if neg = false ∧ un ≥ cutoff then
        (int64OfUint64 (cutoff - 1), some (rangeError fnParseInt s0))
      else if neg = true ∧ un > cutoff then
        (negInt64 (int64OfUint64 cutoff), some (rangeError fnParseInt s0))
      else
        let n := int64OfUint64 un
        (if neg then negInt64 n else n, none)

end strconv

/-! ## Values, errors and the standard-library calls left abstract -/

/-- A `float64`, identified by its IEEE-754 bit pattern. -/
structure Float64 where
  bits : Nat
  deriving DecidableEq, Repr

/-- A `*time.Location`, as far as `time.Parse` tells locations apart: `time.UTC`,
the host's `time.Local`, or a zone made by `time.FixedZone(name, offset)`. -/
inductive Location where
  | UTC
  | Local
  | Fixed (name : GoString) (offset : Int)
  deriving DecidableEq, Repr

/-- A `time.Time`: an instant (seconds and nanoseconds since the Unix epoch)
together with the location it is attached to. -/
structure Time where
  unixSec : Int
  nsec : Int
  loc : Location
  deriving DecidableEq, Repr

/-- The Go type `time.ParseError`. -/
structure ParseError where
  Layout : GoString
  Value : GoString
  LayoutElem : GoString
  ValueElem : GoString
  Message : GoString
  deriving DecidableEq, Repr

/-- A Go `error` value, as far as `value.go` produces one. -/
inductive GoError where
  /-- A `*strconv.NumError`. -/
  | numError (e : strconv.NumError)
  /-- The result of `fmt.Errorf` with the formatted message. -/
  | errorf (msg : GoString)
  /-- A `*time.ParseError`. -/
  | parseError (e : ParseError)
  deriving DecidableEq, Repr

/-- A `driver.Value` (an `interface{}`) as `convertValue` produces it.
`strconv.ParseInt` and `strconv.ParseFloat` return `int64` and `float64`
whatever the bit size asked for. -/
inductive Value where
  | nil
  | int64 (n : Int)
  | bool (b : Bool)
  | float64 (f : Float64)
  | string (s : GoString)
  | time (t : Time)
  deriving DecidableEq, Repr

/-- The standard-library functions `convertValue` calls and whose bodies are
outside this development: `strconv.ParseFloat(s, bitSize)` and
`time.Parse(layout, value)` (the latter as evaluated on the host at hand). -/
structure Stdlib where
  ParseFloat : GoString → Nat → Float64 × Option strconv.NumError
  Parse : GoString → GoString → Time × Option ParseError

/-- How a call of `convertValue` ends. -/
inductive Result where
  /-- A normal return of the pair `(value, err)`. -/
  | ret (v : Value) (err : Option GoError)
  /-- The call panics with the given error value. -/
  | panic (e : GoError)
  deriving DecidableEq, Repr

/-! ## `value.go` -/

def TimestampLayout : GoString := lit "2006-01-02 15:04:05.999"

def TimestampWithTimeZoneLayout : GoString := lit "2006-01-02 15:04:05.999 MST"

def DateLayout : GoString := lit "2006-01-02"

def nullStringResultModeGzipDL : GoString := lit "\\N"

/-- Lines 79-81 of `convertValue`: the rewriting of `athenaType` before the
`switch`. -/
def normalizeType (athenaType : GoString) : GoString :=
  if athenaType.length > 7 ∧ athenaType.take 7 = lit "decimal" then lit "decimal"
  else athenaType

/-- The function `convertValue(athenaType string, rawValue *string)`. -/
def convertValue (lib : Stdlib) (athenaType : GoString) (rawValue : Option GoString) :
    Result :=
  match rawValue with
  | none => .ret .nil none
  | some val =>
    let athenaType := normalizeType athenaType
    if athenaType = lit "smallint" then
      .ret (.int64 (strconv.ParseInt val 16).1) ((strconv.ParseInt val 16).2.map .numError)
    else if athenaType = lit "integer" ∨ athenaType = lit "int" then
      .ret (.int64 (strconv.ParseInt val 32).1) ((strconv.ParseInt val 32).2.map .numError)
    else if athenaType = lit "bigint" then
      .ret (.int64 (strconv.ParseInt val 64).1) ((strconv.ParseInt val 64).2.map .numError)
    else if athenaType = lit "boolean" then
      if val = lit "true" then .ret (.bool true) none
      else if val = lit "false" then .ret (.bool false) none
      else .ret .nil (some (.errorf (lit "cannot parse '" ++ val ++ lit "' as boolean")))
    else if athenaType = lit "float" then
      .ret (.float64 (lib.ParseFloat val 32).1) ((lib.ParseFloat val 32).2.map .numError)
    else if athenaType = lit "double" ∨ athenaType = lit "decimal" then
      .ret (.float64 (lib.ParseFloat val 64).1) ((lib.ParseFloat val 64).2.map .numError)
    else if athenaType = lit "varchar" ∨ athenaType = lit "string" then
      .ret (.string val) none
    else if athenaType = lit "timestamp" then
      .ret (.time (lib.Parse TimestampLayout val).1)
        ((lib.Parse TimestampLayout val).2.map .parseError)
    else if athenaType = lit "timestamp with time zone" then
      .ret (.time (lib.Parse TimestampWithTimeZoneLayout val).1)
        ((lib.Parse TimestampWithTimeZoneLayout val).2.map .parseError)
    else if athenaType = lit "date" then
      .ret (.time (lib.Parse DateLayout val).1) ((lib.Parse DateLayout val).2.map .parseError)
    else if athenaType = lit "json" ∨ athenaType = lit "char" ∨ athenaType = lit "varbinary"
        ∨ athenaType = lit "row" ∨ athenaType = lit "binary" ∨ athenaType = lit "struct"
        ∨ athenaType = lit "interval year to month"
        ∨ athenaType = lit "interval day to second"
        ∨ athenaType = lit "ipaddress" ∨ athenaType = lit "array" ∨ athenaType = lit "map"
        ∨ athenaType = lit "unknown" then
      .ret (.string val) none
    else
      .panic (.errorf (lit "unknown type \x60" ++ athenaType ++ lit "\x60 with value " ++ val))

/-! ## The row adapters -/

/-- The AWS SDK type `athena.ColumnInfo`, reduced to the field the adapters
read (`Type *string`). -/
structure ColumnInfo where
  Type_ : Option GoString
  deriving DecidableEq, Repr

/-- The AWS SDK type `athena.Column`, reduced to the field the adapters read
(`Type *string`). -/
structure Column where
  Type_ : Option GoString
  deriving DecidableEq, Repr

/-- The AWS SDK type `athena.Datum` (`VarCharValue *string`). -/
structure Datum where
  VarCharValue : Option GoString
  deriving DecidableEq, Repr

/-- The type `downloadField` of the CSV reader, with the two fields
`convertRowFromCsv` reads: the text `val` and the flag `isNil`. -/
structure downloadField where
  val : GoString
  isNil : Bool
  deriving DecidableEq, Repr

/-- A panic that ends a row conversion. -/
inductive Panic where
  /-- The `panic(err)` of `convertValue`. -/
  | value (e : GoError)
  /-- A runtime error: index `i` out of range for a slice of length `len`. -/
  | indexOutOfRange (i len : Nat)
  /-- A runtime error: nil pointer dereference. -/
  | nilDereference
  deriving DecidableEq, Repr

/-- How a row adapter ends: `return nil`, `return err`, or a panic. -/
inductive RowOutcome where
  | ok
  | error (err : GoError)
  | panic (p : Panic)
  deriving DecidableEq, Repr

/-- The loop `for i, val := range in` of `convertRow`, from index `i` on, with
the cells still to visit; `ret` is the caller's slice, updated in place. -/
def convertRowLoop (lib : Stdlib) (columns : List (Option ColumnInfo)) :
    Nat → List (Option Datum) → List Value → List Value × RowOutcome
  | _, [], ret => (ret, .ok)
  | i, val :: rest, ret =>
    match columns[i]? with
    | none => (ret, .panic (.indexOutOfRange i columns.length))
    | some none => (ret, .panic .nilDereference)
    | some (some column) =>
      match column.Type_ with
      | none => (ret, .panic .nilDereference)
      | some athenaType =>
        match val with
        | none => (ret, .panic .nilDereference)
        | some datum =>
          match convertValue lib athenaType datum.VarCharValue with
          | .panic e => (ret, .panic (.value e))
          | .ret _ (some err) => (ret, .error err)
          | .ret coerced none =>
            if i < ret.length then convertRowLoop lib columns (i + 1) rest (ret.set i coerced)
            else (ret, .panic (.indexOutOfRange i ret.length))

/-- The function `convertRow(columns, in, ret)`: the final contents of `ret`
and the way the call ends. -/
def convertRow (lib : Stdlib) (columns : List (Option ColumnInfo))
    (input : List (Option Datum)) (ret : List Value) : List Value × RowOutcome :=
  convertRowLoop lib columns 0 input ret

/-- The loop of `convertRowFromTableInfo`, from index `i` on. -/
def convertRowFromTableInfoLoop (lib : Stdlib) (columns : List (Option Column)) :
    Nat → List GoString → List Value → List Value × RowOutcome
  | _, [], ret => (ret, .ok)
  | i, val :: rest, ret =>
    match columns[i]? with
    | none => (ret, .panic (.indexOutOfRange i columns.length))
    | some none => (ret, .panic .nilDereference)
    | some (some column) =>
      match column.Type_ with
      | none => (ret, .panic .nilDereference)
      | some athenaType =>
        let r :=
          if val = nullStringResultModeGzipDL then convertValue lib athenaType none
          else convertValue lib athenaType (some val)
        match r with
        | .panic e => (ret, .panic (.value e))
        | .ret _ (some err) => (ret, .error err)
        | .ret coerced none =>
          if i < ret.length then
            convertRowFromTableInfoLoop lib columns (i + 1) rest (ret.set i coerced)
          else (ret, .panic (.indexOutOfRange i ret.length))

/-- The function `convertRowFromTableInfo(columns, in, ret)`. -/
def convertRowFromTableInfo (lib : Stdlib) (columns : List (Option Column))
    (input : List GoString) (ret : List Value) : List Value × RowOutcome :=
  convertRowFromTableInfoLoop lib columns 0 input ret

/-- The loop of `convertRowFromCsv`, from index `i` on.  As in
`convertRowFromTableInfoLoop`, the test of the cell has no effect of its own,
and the column lookup that both of its branches start with is written once. -/
def convertRowFromCsvLoop (lib : Stdlib) (columns : List (Option ColumnInfo)) :
    Nat → List downloadField → List Value → List Value × RowOutcome
  | _, [], ret => (ret, .ok)
  | i, df :: rest, ret =>
    match columns[i]? with
    | none => (ret, .panic (.indexOutOfRange i columns.length))
    | some none => (ret, .panic .nilDereference)
    | some (some column) =>
      match column.Type_ with
      | none => (ret, .panic .nilDereference)
      | some athenaType =>
        let r :=
          if df.isNil then convertValue lib athenaType none
          else convertValue lib athenaType (some df.val)
        match r with
        | .panic e => (ret, .panic (.value e))
        | .ret _ (some err) => (ret, .error err)
        | .ret coerced none =>
          if i < ret.length then
            convertRowFromCsvLoop lib columns (i + 1) rest (ret.set i coerced)
          else (ret, .panic (.indexOutOfRange i ret.length))

/-- The function `convertRowFromCsv(columns, in, ret)`. -/
def convertRowFromCsv (lib : Stdlib) (columns : List (Option ColumnInfo))
    (input : List downloadField) (ret : List Value) : List Value × RowOutcome :=
  convertRowFromCsvLoop lib columns 0 input ret

/-- A library instance for running the code on closed inputs: both calls
reject every text.  It is used only where the path taken reaches neither. -/
def rejectingLib : Stdlib where
  ParseFloat := fun s _ => (⟨0⟩, some ⟨lit "ParseFloat", s, .ErrSyntax⟩)
  Parse := fun layout value =>
    (⟨0, 0, .UTC⟩, some ⟨layout, value, [], [], []⟩)

/-! ## Notions the specification uses -/

/-- The type tags the `switch` of `convertValue` has a `case` for, in source
order. -/
def knownTags : List GoString :=
  [lit "smallint", lit "integer", lit "int", lit "bigint", lit "boolean", lit "float",
   lit "double", lit "decimal", lit "varchar", lit "string", lit "timestamp",
   lit "timestamp with time zone", lit "date", lit "json", lit "char", lit "varbinary",
   lit "row", lit "binary", lit "struct", lit "interval year to month",
   lit "interval day to second", lit "ipaddress", lit "array", lit "map", lit "unknown"]

/-- The specification's wording of a parameterized decimal type name: the
literal `decimal` followed by a parenthesized clause, `decimal(` ... `)`. -/
def isParameterizedDecimal (t : GoString) : Bool :=
  match t.drop 7 with
  | 40 :: clause => decide (t.take 7 = lit "decimal") && clause.getLast? == some 41
  | _ => false

/-- An ASCII decimal digit, `'0'` to `'9'`. -/
def isDigit (b : UInt8) : Bool := decide (48 ≤ b.toNat ∧ b.toNat ≤ 57)

/-- Appending the digit `b` to a run of digits of value `a`. -/
def digitStep (a : Nat) (b : UInt8) : Nat := 10 * a + (b.toNat - 48)

/-- The number a run of decimal digits denotes, most significant digit
first. -/
def digitsValue (ds : List UInt8) : Nat := ds.foldl digitStep 0

/-- The number a run of bytes denotes when it is one or more decimal digits. -/
def unsignedLiteral? (ds : List UInt8) : Option Nat :=
  if ds ≠ [] ∧ ds.all isDigit then some (digitsValue ds) else none

/-- The specification's reading of an integer literal: an optional `+` or `-`
sign followed by one or more decimal digits denotes an integer; any other
text denotes none. -/
def intLiteral? (v : GoString) : Option Int :=
  match v with
  | [] => none
  | b :: t =>
    if b = 43 then Option.map (fun (m : Nat) => Int.ofNat m) (unsignedLiteral? t)
    else if b = 45 then Option.map (fun (m : Nat) => -Int.ofNat m) (unsignedLiteral? t)
    else Option.map (fun (m : Nat) => Int.ofNat m) (unsignedLiteral? v)

/-- The integer tags of the specification with their widths in bits. -/
def integerTags : List (GoString × Nat) :=
  [(lit "smallint", 16), (lit "integer", 32), (lit "int", 32), (lit "bigint", 64)]

/-- The pass-through tags as the `case` of `convertValue` spells them. -/
def passThroughTags : List GoString :=
  [lit "json", lit "char", lit "varbinary", lit "row", lit "binary", lit "struct",
   lit "interval year to month", lit "interval day to second", lit "ipaddress",
   lit "array", lit "map", lit "unknown"]

/-- The pass-through tags as the specification's table spells them. -/
def specPassThroughTags : List GoString :=
  [lit "json", lit "char", lit "varbinary", lit "row", lit "binary", lit "struct",
   lit "interval year-to-month", lit "interval day-to-second", lit "ipaddress",
   lit "array", lit "map", lit "unknown"]

/-! ## A device for the proofs about `strconv.ParseInt` -/

/-- The body of `strconv.ParseInt` after the sign has been picked off, as a
function of the pair `(neg, s)` the sign test leaves; `s0` is the whole
input.  A device for the proofs: `ParseInt_cons` states that `ParseInt` is
this body applied to the outcome of its sign test. -/
def parseIntSigned (s0 : GoString) (signed : Bool × GoString) (bitSize : Nat) :
    Int × Option strconv.NumError :=
  let neg := signed.1
  let un := (strconv.ParseUint signed.2 bitSize).1
  let err := (strconv.ParseUint signed.2 bitSize).2
  match err.filter (fun e => e.Err ≠ .ErrRange) with
  | some e => (0, some { e with Func := strconv.fnParseInt, Num := s0 })
  | none =>
    let bitSize := if bitSize = 0 then strconv.IntSize else bitSize
    let cutoff := 2 ^ (bitSize - 1) % 2 ^ 64
    if neg = false ∧ un ≥ cutoff then
      (strconv.int64OfUint64 (cutoff - 1), some (strconv.rangeError strconv.fnParseInt s0))
    else if neg = true ∧ un > cutoff then
      (strconv.negInt64 (strconv.int64OfUint64 cutoff),
        some (strconv.rangeError strconv.fnParseInt s0))
    else
      let n := strconv.int64OfUint64 un
      (if neg then strconv.negInt64 n else n, none)

/-! ## Notions for the row adapters -/

/-- The null normalization of `convertRowFromTableInfo`: the string `\N`
stands for an absent value. -/
def tableInfoRaw (s : GoString) : Option GoString :=
  if s = lit "\\N" then none else some s

/-- The null normalization of `convertRowFromCsv`: a field with `isNil` set
stands for an absent value, whatever its text. -/
def csvRaw (df : downloadField) : Option GoString :=
  if df.isNil then none else some df.val

/-- The column descriptors `[]*athena.ColumnInfo` that declare the given type
names. -/
def columnInfos (types : List GoString) : List (Option ColumnInfo) :=
  types.map fun t => some ⟨some t⟩

/-- The column descriptors `[]*athena.Column` that declare the given type
names. -/
def tableColumns (types : List GoString) : List (Option Column) :=
  types.map fun t => some ⟨some t⟩

/-- The cells `[]*athena.Datum` that carry the given optional strings. -/
def datumCells (raws : List (Option GoString)) : List (Option Datum) :=
  raws.map fun r => some ⟨r⟩

/-- The values of the leading cells that decode without an error: the values
of the longest run of results `(v, nil)` at the start of the list. -/
def okValues : List Result → List Value
  | .ret v none :: rest => v :: okValues rest
  | _ => []

/-- The way a row conversion ends, given the results of its cells in order:
with the error, or the panic, of the first cell that does not decode, and
with `return nil` when there is none. -/
def firstFailure : List Result → RowOutcome
  | [] => .ok
  | .ret _ none :: rest => firstFailure rest
  | .ret _ (some err) :: _ => .error err
  | .panic e :: _ => .panic (.value e)

/-- The result `out` (final contents of `ret`, way of ending) is what one of
the three adapters returns for columns that declare the type names `types`,
cells whose null-normalized raw values are `raws`, and the output slice `ret`:
`convertRow` on the datums that carry `raws`, `convertRowFromTableInfo` on
strings that stand for `raws` (`\N` for an absent value), or
`convertRowFromCsv` on fields that stand for `raws` (`isNil` for an absent
value).  The descriptors and the datums are non-nil pointers and every
descriptor has a type name, as in the data model of the specification. -/
def AdapterRun (lib : Stdlib) (types : List GoString) (raws : List (Option GoString))
    (ret : List Value) (out : List Value × RowOutcome) : Prop :=
  out = convertRow lib (columnInfos types) (datumCells raws) ret
  ∨ (∃ cells : List GoString, cells.map tableInfoRaw = raws
      ∧ out = convertRowFromTableInfo lib (tableColumns types) cells ret)
  ∨ (∃ fields : List downloadField, fields.map csvRaw = raws
      ∧ out = convertRowFromCsv lib (columnInfos types) fields ret)

/-- The text of the sentinel errors a `*strconv.NumError` wraps. -/
def strconv.ErrKind.text : strconv.ErrKind → GoString
  | .ErrSyntax => lit "invalid syntax"
  | .ErrRange => lit "value out of range"
  | .ErrBitSize bitSize => lit "invalid bit size " ++ lit (toString bitSize)

/-- The error value carries the text `s`: `s` occurs, as a run of consecutive
bytes, in one of the strings the error is made of (the fields of a
`*strconv.NumError` or `*time.ParseError`, the message of `fmt.Errorf`). -/
def GoError.carries (e : GoError) (s : GoString) : Prop :=
  match e with
  | .numError n => s <:+: n.Func ∨ s <:+: n.Num ∨ s <:+: n.Err.text
  | .errorf msg => s <:+: msg
  | .parseError p =>
    s <:+: p.Layout ∨ s <:+: p.Value ∨ s <:+: p.LayoutElem ∨ s <:+: p.ValueElem
      ∨ s <:+: p.Message

/-- The tags the specification calls numeric, and the tag `boolean`. -/
def numericAndBooleanTags : List GoString :=
  [lit "smallint", lit "integer", lit "int", lit "bigint", lit "float", lit "double",
   lit "decimal", lit "boolean"]

/-! ## `time`: `time.Parse` on the three layouts of `value.go`

The functions below follow package `time` of the Go standard library
(`format.go`, `time.go`).  Go releases differ in points no theorem below
depends on (the wording of the error messages, fractions of more than nine
digits, a comma as the separator of the fraction); the definitions take the
behaviour of the recent releases (Go 1.20 and later).  Go's `int` is `Int`;
`uint64` arithmetic is `Nat` arithmetic with explicit `% 2^64`. -/

namespace time

/-- The host's time-zone configuration as `time.Parse` reads it: the method
`lookupName(name, unix)` of the location `time.Local`, which gives the offset
of the zone abbreviation `name` when the host's zone data knows it. -/
structure Host where
  lookupName : GoString → Int → Option Int

/-- The byte `s[i]` as an `int` (0 when `i` is out of range, which the callers
exclude). -/
def byteAt (s : GoString) (i : Nat) : Int := ((s.getD i 0).toNat : Int)

/-- Go's `isDigit(s, i)`: index `i` is in range and holds a decimal digit. -/
def isDigit (s : GoString) (i : Nat) : Bool :=
  match s[i]? with
  | none => false
  | some c => decide (48 ≤ c.toNat ∧ c.toNat ≤ 57)

/-- Go's `getnum(s, fixed)`: one or two leading digits (two when `fixed`);
`none` is `errBad`. -/
def getnum (s : GoString) (fixed : Bool) : Option (Int × GoString) :=
  if isDigit s 0 = false then none
  else if isDigit s 1 = false then
    if fixed then none else some (byteAt s 0 - 48, s.drop 1)
  else some ((byteAt s 0 - 48) * 10 + (byteAt s 1 - 48), s.drop 2)

/-- Go's `leadingInt(s)`, started with the accumulator `x` (a `uint64`):
consumes the leading digits; `none` is `errLeadingInt`. -/
def leadingInt : GoString → Nat → Option (Nat × GoString)
  | [], x => some (x, [])
  | c :: rest, x =>
    if c.toNat < 48 ∨ c.toNat > 57 then some (x, c :: rest)
    else if x > 2 ^ 63 / 10 then none
    else
      let x1 := (x * 10 + c.toNat - 48) % 2 ^ 64
      if x1 > 2 ^ 63 then none else leadingInt rest x1

/-- Go's `atoi(s)` of package `time`; `none` is `errAtoi`. -/
def atoi (s : GoString) : Option Int :=
  let neg : Bool := decide (s.head? = some 45)
  let s1 := if s.head? = some 45 ∨ s.head? = some 43 then s.drop 1 else s
  match leadingInt s1 0 with
  | none => none
  | some (q, rem) =>
    if rem ≠ [] then none
    else
      let x := strconv.int64OfUint64 q
      some (if neg then strconv.negInt64 x else x)

/-- Go's `cutspace(s)`: drops the leading spaces. -/
def cutspace : GoString → GoString
  | [] => []
  | c :: rest => if c = 32 then cutspace rest else c :: rest

/-- The loop of Go's `skip(value, prefix)`, with a bound on the number of
iterations (each iteration shortens `prefix`).  Returns what is left of
`value` and whether the prefix was matched (`false` is `errBad`). -/
def skipLoop : Nat → GoString → GoString → GoString × Bool
  | 0, value, _ => (value, true)
  | fuel + 1, value, pfx =>
    match pfx with
    | [] => (value, true)
    | p :: ptail =>
      if p = 32 then
        if value ≠ [] ∧ value.head? ≠ some 32 then (value, false)
        else skipLoop fuel (cutspace value) (cutspace pfx)
      else if value = [] ∨ value.head? ≠ some p then (value, false)
      else skipLoop fuel (value.drop 1) ptail

/-- Go's `skip(value, prefix)`. -/
def skip (value pfx : GoString) : GoString × Bool := skipLoop pfx.length value pfx

/-- Go's `commaOrPeriod(b)`. -/
def commaOrPeriod (b : UInt8) : Bool := b = 46 || b = 44

/-- How the parsing of one layout element ends: the parsed number and the
rest of the value, `errBad` (any `err != nil`), or a range error named by
`rangeErrString` with the value left at that point. -/
inductive Elem (α : Type) where
  | ok (a : α) (value : GoString)
  | bad
  | outOfRange (what : GoString) (value : GoString)
  deriving DecidableEq, Repr

/-- Go's `parseNanoseconds(value, nbytes)`. -/
def parseNanoseconds (value : GoString) (nbytes : Nat) : Elem Int :=
  if (value.head?.map commaOrPeriod) ≠ some true then .bad
  else
    let value1 := if nbytes > 10 then value.take 10 else value
    let nbytes1 := if nbytes > 10 then 10 else nbytes
    match atoi ((value1.take nbytes1).drop 1) with
    | none => .bad
    | some ns =>
      if ns < 0 then .outOfRange (lit "fractional second") value
      else .ok (ns * 10 ^ (10 - nbytes1)) value

/-- Go's `parseSignedOffset(value)`: the length of a signed hour offset such
as `+03`, or 0. -/
def parseSignedOffset (value : GoString) : Nat :=
  if value.head? ≠ some 45 ∧ value.head? ≠ some 43 then 0
  else
    match leadingInt (value.drop 1) 0 with
    | none => 0
    | some (x, rem) =>
      if value.drop 1 = rem then 0
      else if x > 23 then 0
      else value.length - rem.length

/-- Go's `parseGMT(value)`; the value is known to start with `GMT`. -/
def parseGMT (value : GoString) : Nat :=
  if value.drop 3 = [] then 3 else 3 + parseSignedOffset (value.drop 3)

/-- The number of leading upper-case letters of `value`, counted up to 6
(the loop `for nUpper = 0; nUpper < 6; nUpper++` of `parseTimeZone`). -/
def countUpper : Nat → GoString → Nat
  | 0, _ => 0
  | _ + 1, [] => 0
  | n + 1, c :: rest => if c.toNat < 65 ∨ 90 < c.toNat then 0 else 1 + countUpper n rest

/-- Go's `parseTimeZone(value)`: the length of the zone abbreviation at the
start of `value`; `none` when there is none. -/
def parseTimeZone (value : GoString) : Option Nat :=
  if value.length < 3 then none
  else if value.length ≥ 4 ∧ (value.take 4 = lit "ChST" ∨ value.take 4 = lit "MeST") then some 4
  else if value.take 3 = lit "GMT" then some (parseGMT value)
  else if value.head? = some 43 ∨ value.head? = some 45 then
    if parseSignedOffset value > 0 then some (parseSignedOffset value) else none
  else
    match countUpper 6 value with
    | 5 => if value[4]? = some 84 then some 5 else none
    | 4 => if value[3]? = some 84 ∨ value.take 4 = lit "WITA" then some 4 else none
    | 3 => some 3
    | _ => none

/-- Go's `isLeap(year)`. -/
def isLeap (year : Int) : Bool := year % 4 = 0 && (year % 100 ≠ 0 || year % 400 = 0)

/-- The table `daysBefore`: the days of a non-leap year before each month. -/
def daysBefore : List Int := [0, 31, 59, 90, 120, 151, 181, 212, 243, 273, 304, 334, 365]

/-- Go's `daysIn(m, year)`. -/
def daysIn (m : Int) (year : Int) : Int :=
  if m = 2 ∧ isLeap year then 29
  else daysBefore.getD m.toNat 0 - daysBefore.getD (m - 1).toNat 0

/-- Go's `norm(hi, lo, base)`: brings `lo` into `[0, base)`, carrying into
`hi`. -/
def norm (hi lo base : Int) : Int × Int :=
  let a : Int × Int :=
    if lo < 0 then (hi - ((-lo - 1) / base + 1), lo + ((-lo - 1) / base + 1) * base)
    else (hi, lo)
  if a.2 ≥ base then (a.1 + a.2 / base, a.2 - (a.2 / base) * base) else a

def absoluteZeroYear : Int := -292277022399

def daysPer400Years : Nat := 365 * 400 + 97

def daysPer100Years : Nat := 365 * 100 + 24

def daysPer4Years : Nat := 365 * 4 + 1

/-- Go's `daysSinceEpoch(year)`: the days from the absolute epoch to the start
of `year`, a `uint64`. -/
def daysSinceEpoch (year : Int) : Nat :=
  let y := ((year - absoluteZeroYear) % 2 ^ 64).toNat
  let n400 := y / 400
  let y1 := y - 400 * n400
  let n100 := y1 / 100
  let y2 := y1 - 100 * n100
  let n4 := y2 / 4
  let y3 := y2 - 4 * n4
  (daysPer400Years * n400 + daysPer100Years * n100 + daysPer4Years * n4 + 365 * y3) % 2 ^ 64

/-- The constant `absoluteToInternal + internalToUnix`. -/
def absoluteToUnix : Int := -9223371966579724800 + -62135596800

/-- Wrap-around of a sum to `int64`. -/
def wrapInt64 (n : Int) : Int := (n + 2 ^ 63) % 2 ^ 64 - 2 ^ 63

/-- Go's `Date(year, month, day, hour, min, sec, nsec, UTC)`: the only
location `Parse` passes on these layouts is `UTC`, whose offset is 0, so the
adjustment to the zone at the end of `Date` does nothing. -/
def Date (year month day hour min sec nsec : Int) : Time :=
  let ym := norm year (month - 1) 12
  let year1 := ym.1
  let month1 := ym.2 + 1
  let sn := norm sec nsec 1000000000
  let ms := norm min sn.1 60
  let hm := norm hour ms.1 60
  let dh := norm day hm.1 24
  let d0 := daysSinceEpoch year1
  let d1 := (d0 + (daysBefore.getD (month1 - 1).toNat 0 % 2 ^ 64).toNat) % 2 ^ 64
  let d2 := if isLeap year1 ∧ month1 ≥ 3 then (d1 + 1) % 2 ^ 64 else d1
  let d3 := (d2 + ((dh.1 - 1) % 2 ^ 64).toNat) % 2 ^ 64
  let abs0 := (d3 * 86400) % 2 ^ 64
  let abs := (abs0 + ((dh.2 * 3600 + hm.2 * 60 + ms.2) % 2 ^ 64).toNat) % 2 ^ 64
  let unix := wrapInt64 (strconv.int64OfUint64 abs + absoluteToUnix)
  ⟨unix, sn.2, .UTC⟩

/-- The layout elements (`std...` constants of `format.go`) that occur in the
three layouts of `value.go`. -/
inductive Std where
  | stdLongYear
  | stdZeroMonth
  | stdZeroDay
  | stdHour
  | stdZeroMinute
  | stdZeroSecond
  | stdFracSecond9
  | stdTZ
  deriving DecidableEq, Repr

/-- The text of a layout element in the layout (`stdstr` in `Parse`). -/
def Std.text : Std → GoString
  | .stdLongYear => lit "2006"
  | .stdZeroMonth => lit "01"
  | .stdZeroDay => lit "02"
  | .stdHour => lit "15"
  | .stdZeroMinute => lit "04"
  | .stdZeroSecond => lit "05"
  | .stdFracSecond9 => lit ".999"
  | .stdTZ => lit "MST"

/-- The successive results `(prefix, std)` of `nextStdChunk` on the layout
`2006-01-02`; after them the layout is empty. -/
def dateChunks : List (GoString × Std) :=
  [([], .stdLongYear), (lit "-", .stdZeroMonth), (lit "-", .stdZeroDay)]

/-- The successive results of `nextStdChunk` on `2006-01-02 15:04:05.999`. -/
def timestampChunks : List (GoString × Std) :=
  dateChunks ++ [(lit " ", .stdHour), (lit ":", .stdZeroMinute), (lit ":", .stdZeroSecond),
    ([], .stdFracSecond9)]

/-- The successive results of `nextStdChunk` on
`2006-01-02 15:04:05.999 MST`. -/
def timestampWithTimeZoneChunks : List (GoString × Std) :=
  timestampChunks ++ [(lit " ", .stdTZ)]

/-- The variables of `Parse` that the elements of these layouts set. -/
structure Fields where
  year : Int
  month : Int
  day : Int
  hour : Int
  min : Int
  sec : Int
  nsec : Int
  /-- Is `z != nil`; the only location stored in `z` is `UTC`. -/
  zUTC : Bool
  zoneName : GoString
  deriving DecidableEq, Repr

/-- The initial values of the variables of `Parse`. -/
def Fields.init : Fields := ⟨0, -1, -1, 0, 0, 0, 0, false, []⟩

/-- The number of digits the case `stdFracSecond9` takes after the separator:
the loop `for i+1 < len(value) && '0' <= value[i+1] && value[i+1] <= '9'`. -/
def countDigits : GoString → Nat
  | [] => 0
  | c :: rest => if 48 ≤ c.toNat ∧ c.toNat ≤ 57 then 1 + countDigits rest else 0

/-- One case of the `switch std & stdMask` of `Parse`: parses the element
`std` at the start of `value`.  `next` is the element that follows in the
layout (read by the case `stdZeroSecond`). -/
def parseElem (std : Std) (next : Option Std) (f : Fields) (value : GoString) :
    Elem Fields :=
  match std with
  | .stdLongYear =>
    if value.length < 4 ∨ isDigit value 0 = false then .bad
    else
      match atoi (value.take 4) with
      | none => .bad
      | some year => .ok { f with year := year } (value.drop 4)
  | .stdZeroMonth =>
    match getnum value true with
    | none => .bad
    | some (month, rest) =>
      if month ≤ 0 ∨ 12 < month then .outOfRange (lit "month") rest
      else .ok { f with month := month } rest
  | .stdZeroDay =>
    match getnum value true with
    | none => .bad
    | some (day, rest) => .ok { f with day := day } rest
  | .stdHour =>
    match getnum value false with
    | none => .bad
    | some (hour, rest) =>
      if hour < 0 ∨ 24 ≤ hour then .outOfRange (lit "hour") rest
      else .ok { f with hour := hour } rest
  | .stdZeroMinute =>
    match getnum value true with
    | none => .bad
    | some (min, rest) =>
      if min < 0 ∨ 60 ≤ min then .outOfRange (lit "minute") rest
      else .ok { f with min := min } rest
  | .stdZeroSecond =>
    match getnum value true with
    | none => .bad
    | some (sec, rest) =>
      if sec < 0 ∨ 60 ≤ sec then .outOfRange (lit "second") rest
      else if rest.length ≥ 2 ∧ rest.head?.map commaOrPeriod = some true
          ∧ isDigit rest 1 = true ∧ next ≠ some .stdFracSecond9 then
        match parseNanoseconds rest (1 + countDigits (rest.drop 1)) with
        | .bad => .bad
        | .outOfRange what v => .outOfRange what v
        | .ok nsec _ =>
          .ok { f with sec := sec, nsec := nsec } (rest.drop (1 + countDigits (rest.drop 1)))
      else .ok { f with sec := sec } rest
  | .stdFracSecond9 =>
    if value.length < 2 ∨ value.head?.map commaOrPeriod ≠ some true
        ∨ isDigit value 1 = false then .ok f value
    else
      match parseNanoseconds value (1 + countDigits (value.drop 1)) with
      | .bad => .bad
      | .outOfRange what v => .outOfRange what v
      | .ok nsec _ =>
        .ok { f with nsec := nsec } (value.drop (1 + countDigits (value.drop 1)))
  | .stdTZ =>
    if value.length ≥ 3 ∧ value.take 3 = lit "UTC" then
      .ok { f with zUTC := true } (value.drop 3)
    else
      match parseTimeZone value with
      | none => .bad
      | some n => .ok { f with zoneName := value.take n } (value.drop n)

/-- The digit `lowerhex[n]` of `0123456789abcdef`, for `n < 16`. -/
def lowerhex (n : Nat) : UInt8 := UInt8.ofNat (if n < 10 then 48 + n else 87 + n)

/-- Go's `quote(s)` of package `time`: the text between double quotes, with a
backslash before a double quote or a backslash, and every byte below 0x20 or
from 0x80 on (the bytes of the runes `quote` escapes) written as `\xNN`. -/
def quote (s : GoString) : GoString :=
  [34] ++ s.flatMap (fun b =>
    if b.toNat ≥ 128 ∨ b.toNat < 32 then [92, 120, lowerhex (b.toNat / 16), lowerhex (b.toNat % 16)]
    else if b = 34 ∨ b = 92 then [92, b]
    else [b]) ++ [34]

/-- The loop `for { ... }` of `Parse` over the elements of the layout; the
empty list is the last iteration, where the layout is used up (`std == 0`)
and text left in the value is an error. -/
def parseLoop (alayout avalue : GoString) :
    List (GoString × Std) → Fields → GoString → Except ParseError Fields
  | [], f, value =>
    if value ≠ [] then
      .error ⟨alayout, avalue, [], value, lit ": extra text: " ++ quote value⟩
    else .ok f
  | (pfx, std) :: rest, f, value =>
    if (skip value pfx).2 = false then
      .error ⟨alayout, avalue, pfx, (skip value pfx).1, []⟩
    else
      match parseElem std (rest.head?.map Prod.snd) f (skip value pfx).1 with
      | .outOfRange what v =>
        .error ⟨alayout, avalue, std.text, v, lit ": " ++ what ++ lit " out of range"⟩
      | .bad => .error ⟨alayout, avalue, std.text, (skip value pfx).1, []⟩
      | .ok f1 value1 => parseLoop alayout avalue rest f1 value1

/-- The zero value `Time{}`, which `Parse` returns next to an error. -/
def zeroTime : Time := ⟨-62135596800, 0, .UTC⟩

/-- The end of `Parse`, after the loop: the day is validated and the time
is built, in UTC unless the value named a zone other than `UTC`, whose offset
is then looked up in the host's local zone data. -/
def parseFinish (host : Host) (alayout avalue : GoString) (f : Fields) :
    Time × Option ParseError :=
  if f.day < 1 ∨ f.day > daysIn f.month f.year then
    (zeroTime, some ⟨alayout, avalue, [], [], lit ": day out of range"⟩)
  else
    let t := Date f.year f.month f.day f.hour f.min f.sec f.nsec
    if f.zUTC then (t, none)
    else if f.zoneName ≠ [] then
      match host.lookupName f.zoneName t.unixSec with
      | some offset => (⟨wrapInt64 (t.unixSec - offset), t.nsec, .Local⟩, none)
      | none =>
        let offset : Int :=
          if f.zoneName.length > 3 ∧ f.zoneName.take 3 = lit "GMT" then
            ((atoi (f.zoneName.drop 3)).getD 0) * 3600
          else 0
        (⟨t.unixSec, t.nsec, .Fixed f.zoneName offset⟩, none)
    else (t, none)

/-- Go's `time.Parse(layout, value)` on a layout given by its elements. -/
def parseChunks (host : Host) (alayout avalue : GoString) (chunks : List (GoString × Std)) :
    Time × Option ParseError :=
  match parseLoop alayout avalue chunks Fields.init avalue with
  | .error e => (zeroTime, some e)
  | .ok f => parseFinish host alayout avalue f

/-- Go's `time.Parse(layout, value)` on the host `host`, for the three
layouts `value.go` passes.  Any other layout is outside this development:
for it the function returns an error that says nothing about Go. -/
def Parse (host : Host) (layout value : GoString) : Time × Option ParseError :=
  if layout = lit "2006-01-02" then parseChunks host layout value dateChunks
  else if layout = lit "2006-01-02 15:04:05.999" then
    parseChunks host layout value timestampChunks
  else if layout = lit "2006-01-02 15:04:05.999 MST" then
    parseChunks host layout value timestampWithTimeZoneChunks
  else (zeroTime, some ⟨layout, value, [], [], []⟩)

end time

/-- The standard library on a given host: `time.Parse` as modelled above, and
an arbitrary `strconv.ParseFloat`. -/
def goLib (parseFloat : GoString → Nat → Float64 × Option strconv.NumError)
    (host : time.Host) : Stdlib where
  ParseFloat := parseFloat
  Parse := time.Parse host

/-- A host whose local zone is UTC: the only abbreviation it knows is `UTC`. -/
def utcHost : time.Host where
  lookupName := fun name _ => if name = lit "UTC" then some 0 else none

/-- A host in the zone `America/Los_Angeles`: it knows `PST` (UTC-8) and `PDT`
(UTC-7). -/
def losAngelesHost : time.Host where
  lookupName := fun name _ =>
    if name = lit "PST" then some (-28800)
    else if name = lit "PDT" then some (-25200)
    else none

/-! ## Formatting dates and timestamps, as the specification words it -/

/-- The ASCII digit for `k % 10`. -/
def digitByte (k : Nat) : UInt8 := UInt8.ofNat (48 + k % 10)

/-- A number below 100 written with two digits, zero-padded. -/
def pad2 (n : Nat) : GoString := [digitByte (n / 10), digitByte n]

/-- A number below 10000 written with four digits, zero-padded. -/
def pad4 (n : Nat) : GoString :=
  [digitByte (n / 1000), digitByte (n / 100), digitByte (n / 10), digitByte n]

/-- A date written as zero-padded `YYYY-MM-DD`. -/
def formatDate (y m d : Nat) : GoString :=
  pad4 y ++ [45] ++ pad2 m ++ [45] ++ pad2 d

/-- The optional fraction of a timestamp for a whole number `ms` of
milliseconds: nothing when `ms` is 0, otherwise a period and the three
digits of `ms` with the trailing zeros dropped. -/
def formatFraction (ms : Nat) : GoString :=
  if ms = 0 then []
  else if ms % 10 ≠ 0 then [46, digitByte (ms / 100), digitByte (ms / 10), digitByte ms]
  else if ms % 100 ≠ 0 then [46, digitByte (ms / 100), digitByte (ms / 10)]
  else [46, digitByte (ms / 100)]

/-- A date-time written as `YYYY-MM-DD HH:MM:SS` followed by the optional
fraction. -/
def formatTimestamp (y m d h mi s ms : Nat) : GoString :=
  formatDate y m d ++ [32] ++ pad2 h ++ [58] ++ pad2 mi ++ [58] ++ pad2 s ++ formatFraction ms

/-- The number of days of month `m` of year `y` in the Gregorian calendar. -/
def daysInMonth (y m : Nat) : Nat :=
  if m = 2 then (if y % 4 = 0 ∧ (y % 100 ≠ 0 ∨ y % 400 = 0) then 29 else 28)
  else if m = 4 ∨ m = 6 ∨ m = 9 ∨ m = 11 then 30
  else 31

/-! ## Theorems -/

/-! ### C1: an absent raw value -/

/-- Claim C1: for every type name whatsoever, `convertValue` on an absent raw
value returns the pair (nil, nil): the null value, no error, and no panic. -/
theorem convertValue_absent (lib : Stdlib) (athenaType : GoString) :
    convertValue lib athenaType none = .ret .nil none := by
  rfl

/-! ### C2: null cells in the three adapters -/

theorem convertRowLoop_null_step (lib : Stdlib) (columns : List (Option ColumnInfo))
    (i : Nat) (t : GoString) (rest : List (Option Datum)) (ret : List Value)
    (hcol : columns[i]? = some (some ⟨some t⟩)) (hi : i < ret.length) :
    convertRowLoop lib columns i (some ⟨none⟩ :: rest) ret
      = convertRowLoop lib columns (i + 1) rest (ret.set i .nil) := by
  simp [convertRowLoop, hcol, convertValue, hi]

theorem convertRowFromTableInfoLoop_null_step (lib : Stdlib)
    (columns : List (Option Column))
    (i : Nat) (t : GoString) (rest : List GoString) (ret : List Value)
    (hcol : columns[i]? = some (some ⟨some t⟩)) (hi : i < ret.length) :
    convertRowFromTableInfoLoop lib columns i (lit "\\N" :: rest) ret
      = convertRowFromTableInfoLoop lib columns (i + 1) rest (ret.set i .nil) := by
  have h : lit "\\N" = nullStringResultModeGzipDL := rfl
  simp [convertRowFromTableInfoLoop, hcol, convertValue, hi, h]

theorem convertRowFromCsvLoop_null_step (lib : Stdlib)
    (columns : List (Option ColumnInfo))
    (i : Nat) (t : GoString) (text : GoString) (rest : List downloadField)
    (ret : List Value)
    (hcol : columns[i]? = some (some ⟨some t⟩)) (hi : i < ret.length) :
    convertRowFromCsvLoop lib columns i (⟨text, true⟩ :: rest) ret
      = convertRowFromCsvLoop lib columns (i + 1) rest (ret.set i .nil) := by
  simp [convertRowFromCsvLoop, hcol, convertValue, hi]

/-- Writing slot `pre.length` of `pre ++ m :: post`. -/
theorem set_length_append (pre post : List Value) (m v : Value) :
    (pre ++ m :: post).set pre.length v = pre ++ v :: post := by
  induction pre with
  | nil => rfl
  | cons a pre ih => simp [List.set, ih]

theorem convertRowLoop_nulls (lib : Stdlib) (columns : List (Option ColumnInfo)) :
    ∀ (mid pre post : List Value),
      (∀ j, pre.length ≤ j → j < pre.length + mid.length →
        ∃ t, columns[j]? = some (some ⟨some t⟩)) →
      convertRowLoop lib columns pre.length
          (List.replicate mid.length (some ⟨none⟩)) (pre ++ mid ++ post)
        = (pre ++ List.replicate mid.length .nil ++ post, .ok) := by
  intro mid
  induction mid with
  | nil => intro pre post _; simp [convertRowLoop]
  | cons m mid ih =>
    intro pre post hcols
    obtain ⟨t, ht⟩ := hcols pre.length (Nat.le_refl _) (by simp)
    have hstep := convertRowLoop_null_step lib columns pre.length t
      (List.replicate mid.length (some ⟨none⟩)) (pre ++ (m :: mid) ++ post) ht (by simp)
    have hset : (pre ++ (m :: mid) ++ post).set pre.length Value.nil
        = (pre ++ [Value.nil]) ++ mid ++ post := by
      have := set_length_append pre (mid ++ post) m Value.nil
      simp at this; simp [this]
    have hrec := ih (pre ++ [Value.nil]) post (by
      intro j h1 h2
      apply hcols j
      · simp at h1; omega
      · simp at h2 ⊢; omega)
    simp only [List.length_cons, List.replicate_succ] at hstep ⊢
    rw [hstep, hset]
    simp only [List.length_append, List.length_singleton] at hrec
    rw [hrec]
    simp

theorem convertRowFromTableInfoLoop_nulls (lib : Stdlib) (columns : List (Option Column)) :
    ∀ (mid pre post : List Value),
      (∀ j, pre.length ≤ j → j < pre.length + mid.length →
        ∃ t, columns[j]? = some (some ⟨some t⟩)) →
      convertRowFromTableInfoLoop lib columns pre.length
          (List.replicate mid.length (lit "\\N")) (pre ++ mid ++ post)
        = (pre ++ List.replicate mid.length .nil ++ post, .ok) := by
  intro mid
  induction mid with
  | nil => intro pre post _; simp [convertRowFromTableInfoLoop]
  | cons m mid ih =>
    intro pre post hcols
    obtain ⟨t, ht⟩ := hcols pre.length (Nat.le_refl _) (by simp)
    have hstep := convertRowFromTableInfoLoop_null_step lib columns pre.length t
      (List.replicate mid.length (lit "\\N")) (pre ++ (m :: mid) ++ post) ht (by simp)
    have hset : (pre ++ (m :: mid) ++ post).set pre.length Value.nil
        = (pre ++ [Value.nil]) ++ mid ++ post := by
      have := set_length_append pre (mid ++ post) m Value.nil
      simp at this; simp [this]
    have hrec := ih (pre ++ [Value.nil]) post (by
      intro j h1 h2
      apply hcols j
      · simp at h1; omega
      · simp at h2 ⊢; omega)
    simp only [List.length_cons, List.replicate_succ] at hstep ⊢
    rw [hstep, hset]
    simp only [List.length_append, List.length_singleton] at hrec
    rw [hrec]
    simp

theorem convertRowFromCsvLoop_nulls (lib : Stdlib) (columns : List (Option ColumnInfo)) :
    ∀ (mid : List Value) (cells : List downloadField) (pre post : List Value),
      cells.length = mid.length →
      (∀ df ∈ cells, df.isNil = true) →
      (∀ j, pre.length ≤ j → j < pre.length + mid.length →
        ∃ t, columns[j]? = some (some ⟨some t⟩)) →
      convertRowFromCsvLoop lib columns pre.length cells (pre ++ mid ++ post)
        = (pre ++ List.replicate mid.length .nil ++ post, .ok) := by
  intro mid
  induction mid with
  | nil =>
    intro cells pre post hlen _ _
    have : cells = [] := List.length_eq_zero.mp (by simpa using hlen)
    subst this
    simp [convertRowFromCsvLoop]
  | cons m mid ih =>
    intro cells pre post hlen hnil hcols
    match cells, hlen, hnil with
    | df :: cells, hlen, hnil =>
      obtain ⟨text, flag⟩ := df
      have hflag : flag = true := hnil ⟨text, flag⟩ (List.mem_cons_self _ _)
      subst hflag
      obtain ⟨t, ht⟩ := hcols pre.length (Nat.le_refl _) (by simp)
      have hstep := convertRowFromCsvLoop_null_step lib columns pre.length t text
        cells (pre ++ (m :: mid) ++ post) ht (by simp)
      have hset : (pre ++ (m :: mid) ++ post).set pre.length Value.nil
          = (pre ++ [Value.nil]) ++ mid ++ post := by
        have := set_length_append pre (mid ++ post) m Value.nil
        simp at this; simp [this]
      have hrec := ih cells (pre ++ [Value.nil]) post (by simpa using hlen)
        (fun df hdf => hnil df (List.mem_cons_of_mem _ hdf)) (by
        intro j h1 h2
        apply hcols j
        · simp at h1; omega
        · simp at h2 ⊢; omega)
      rw [hstep, hset]
      simp only [List.length_append, List.length_singleton] at hrec
      rw [hrec]
      simp [List.replicate_succ]

/-- Claim C2: in each of the three adapters a cell that represents null in the
adapter's convention (absent datum string, catalog string equal to `\N`, CSV
field with `isNil` set whatever its text) is decoded, for every declared type
name of its column, to nil with no error and no panic: the loop stores nil at
the cell's index and goes on to the next cell.  A row made only of null cells
converts successfully to a row of nils. -/
theorem null_cells_decode_to_nil (lib : Stdlib) :
    (∀ (columns : List (Option ColumnInfo)) (i : Nat) (t : GoString)
        (rest : List (Option Datum)) (ret : List Value),
        columns[i]? = some (some ⟨some t⟩) → i < ret.length →
        convertRowLoop lib columns i (some ⟨none⟩ :: rest) ret
          = convertRowLoop lib columns (i + 1) rest (ret.set i .nil))
    ∧ (∀ (columns : List (Option Column)) (i : Nat) (t : GoString)
        (rest : List GoString) (ret : List Value),
        columns[i]? = some (some ⟨some t⟩) → i < ret.length →
        convertRowFromTableInfoLoop lib columns i (lit "\\N" :: rest) ret
          = convertRowFromTableInfoLoop lib columns (i + 1) rest (ret.set i .nil))
    ∧ (∀ (columns : List (Option ColumnInfo)) (i : Nat) (t text : GoString)
        (rest : List downloadField) (ret : List Value),
        columns[i]? = some (some ⟨some t⟩) → i < ret.length →
        convertRowFromCsvLoop lib columns i (⟨text, true⟩ :: rest) ret
          = convertRowFromCsvLoop lib columns (i + 1) rest (ret.set i .nil))
    ∧ (∀ (types : List GoString) (ret : List Value), ret.length = types.length →
        convertRow lib (types.map fun t => some ⟨some t⟩)
            (List.replicate types.length (some ⟨none⟩)) ret
          = (List.replicate types.length .nil, .ok))
    ∧ (∀ (types : List GoString) (ret : List Value), ret.length = types.length →
        convertRowFromTableInfo lib (types.map fun t => some ⟨some t⟩)
            (List.replicate types.length (lit "\\N")) ret
          = (List.replicate types.length .nil, .ok))
    ∧ (∀ (types texts : List GoString) (ret : List Value),
        ret.length = types.length → texts.length = types.length →
        convertRowFromCsv lib (types.map fun t => some ⟨some t⟩)
            (texts.map fun text => ⟨text, true⟩) ret
          = (List.replicate types.length .nil, .ok)) := by
  have hcols : ∀ (types : List GoString) (j : Nat), j < types.length →
      ∃ t, (types.map fun t => some (ColumnInfo.mk (some t)))[j]?
        = some (some ⟨some t⟩) := by
    intro types j hj
    exact ⟨types[j], by simp [List.getElem?_map, List.getElem?_eq_getElem hj]⟩
  have hcols2 : ∀ (types : List GoString) (j : Nat), j < types.length →
      ∃ t, (types.map fun t => some (Column.mk (some t)))[j]?
        = some (some ⟨some t⟩) := by
    intro types j hj
    exact ⟨types[j], by simp [List.getElem?_map, List.getElem?_eq_getElem hj]⟩
  refine ⟨?_, ?_, ?_, ?_, ?_, ?_⟩
  · intro columns i t rest ret hcol hi
    exact convertRowLoop_null_step lib columns i t rest ret hcol hi
  · intro columns i t rest ret hcol hi
    exact convertRowFromTableInfoLoop_null_step lib columns i t rest ret hcol hi
  · intro columns i t text rest ret hcol hi
    exact convertRowFromCsvLoop_null_step lib columns i t text rest ret hcol hi
  · intro types ret hlen
    have h := convertRowLoop_nulls lib (types.map fun t => some ⟨some t⟩) ret [] []
      (by intro j _ hj; exact hcols types j (by simpa [hlen] using hj))
    simpa [convertRow, hlen] using h
  · intro types ret hlen
    have h := convertRowFromTableInfoLoop_nulls lib (types.map fun t => some ⟨some t⟩)
      ret [] [] (by intro j _ hj; exact hcols2 types j (by simpa [hlen] using hj))
    simpa [convertRowFromTableInfo, hlen] using h
  · intro types texts ret hlen htexts
    have h := convertRowFromCsvLoop_nulls lib (types.map fun t => some ⟨some t⟩) ret
      (texts.map fun text => ⟨text, true⟩) [] [] (by simp [hlen, htexts])
      (by intro df hdf; simp at hdf; obtain ⟨a, _, rfl⟩ := hdf; rfl)
      (by intro j _ hj; exact hcols types j (by simpa [hlen] using hj))
    simpa [convertRowFromCsv, hlen] using h

theorem null_cells_decode_to_nil_witness :
    convertRow rejectingLib [some ⟨some (lit "bigint")⟩, some ⟨some (lit "no such type")⟩]
        [some ⟨none⟩, some ⟨none⟩] [.bool true, .bool false] = ([.nil, .nil], .ok)
    ∧ convertRowFromTableInfo rejectingLib
        [some ⟨some (lit "boolean")⟩, some ⟨some (lit "no such type")⟩]
        [lit "\\N", lit "\\N"] [.bool true, .bool false] = ([.nil, .nil], .ok)
    ∧ convertRowFromCsv rejectingLib
        [some ⟨some (lit "date")⟩, some ⟨some (lit "no such type")⟩]
        [⟨lit "42", true⟩, ⟨lit "", true⟩] [.bool true, .bool false] = ([.nil, .nil], .ok)
    ∧ convertRowLoop rejectingLib [none, some ⟨some (lit "int")⟩] 1
        [some ⟨none⟩, some ⟨some (lit "x")⟩] [.bool true, .bool false, .bool true]
      = convertRowLoop rejectingLib [none, some ⟨some (lit "int")⟩] 2
        [some ⟨some (lit "x")⟩] [.bool true, .nil, .bool true] :=
  ⟨(null_cells_decode_to_nil rejectingLib).2.2.2.1 [lit "bigint", lit "no such type"]
      [.bool true, .bool false] rfl,
   (null_cells_decode_to_nil rejectingLib).2.2.2.2.1 [lit "boolean", lit "no such type"]
      [.bool true, .bool false] rfl,
   (null_cells_decode_to_nil rejectingLib).2.2.2.2.2 [lit "date", lit "no such type"]
      [lit "42", lit ""] [.bool true, .bool false] rfl rfl,
   (null_cells_decode_to_nil rejectingLib).1 [none, some ⟨some (lit "int")⟩] 1 (lit "int")
      [some ⟨some (lit "x")⟩] [.bool true, .bool false, .bool true] rfl (by decide)⟩

/-! ### C3: type names without a dispatch case -/

/-- Claim C3: when the type name, after the decimal rewriting, is none of the
tags the `switch` has a case for (compared byte for byte), `convertValue` on a
present raw value panics: it returns neither a value nor an error. -/
theorem convertValue_unknown_type_panics (lib : Stdlib) (athenaType val : GoString)
    (h : normalizeType athenaType ∉ knownTags) :
    convertValue lib athenaType (some val)
      = .panic (.errorf (lit "unknown type \x60" ++ normalizeType athenaType
          ++ lit "\x60 with value " ++ val)) := by
  simp only [knownTags, List.mem_cons, List.mem_singleton, not_or, List.not_mem_nil,
    not_false_eq_true, and_true] at h
  simp [convertValue, h]

theorem convertValue_unknown_type_panics_witness :
    normalizeType (lit "BIGINT") ∉ knownTags
    ∧ convertValue rejectingLib (lit "BIGINT") (some (lit "42"))
      = .panic (.errorf (lit "unknown type \x60BIGINT\x60 with value 42")) :=
  ⟨by decide,
   convertValue_unknown_type_panics rejectingLib (lit "BIGINT") (lit "42") (by decide)⟩

/-- The converse of C3: a type name with a dispatch case never panics. -/
theorem convertValue_known_type_returns (lib : Stdlib) (athenaType : GoString)
    (rawValue : Option GoString) (h : normalizeType athenaType ∈ knownTags) :
    ∃ v err, convertValue lib athenaType rawValue = .ret v err := by
  cases rawValue with
  | none => exact ⟨_, _, rfl⟩
  | some val =>
    simp only [convertValue]
    by_cases h0 : normalizeType athenaType = lit "smallint"
    · exact ⟨_, _, if_pos h0⟩
    rw [if_neg h0]
    by_cases h1 : normalizeType athenaType = lit "integer" ∨ normalizeType athenaType = lit "int"
    · exact ⟨_, _, if_pos h1⟩
    rw [if_neg h1]
    by_cases h2 : normalizeType athenaType = lit "bigint"
    · exact ⟨_, _, if_pos h2⟩
    rw [if_neg h2]
    by_cases h3 : normalizeType athenaType = lit "boolean"
    · rw [if_pos h3]
      by_cases hb1 : val = lit "true"
      · exact ⟨_, _, if_pos hb1⟩
      · rw [if_neg hb1]
        by_cases hb2 : val = lit "false"
        · exact ⟨_, _, if_pos hb2⟩
        · exact ⟨_, _, if_neg hb2⟩
    rw [if_neg h3]
    by_cases h4 : normalizeType athenaType = lit "float"
    · exact ⟨_, _, if_pos h4⟩
    rw [if_neg h4]
    by_cases h5 : normalizeType athenaType = lit "double" ∨ normalizeType athenaType = lit "decimal"
    · exact ⟨_, _, if_pos h5⟩
    rw [if_neg h5]
    by_cases h6 : normalizeType athenaType = lit "varchar" ∨ normalizeType athenaType = lit "string"
    · exact ⟨_, _, if_pos h6⟩
    rw [if_neg h6]
    by_cases h7 : normalizeType athenaType = lit "timestamp"
    · exact ⟨_, _, if_pos h7⟩
    rw [if_neg h7]
    by_cases h8 : normalizeType athenaType = lit "timestamp with time zone"
    · exact ⟨_, _, if_pos h8⟩
    rw [if_neg h8]
    by_cases h9 : normalizeType athenaType = lit "date"
    · exact ⟨_, _, if_pos h9⟩
    rw [if_neg h9]
    simp only [knownTags, List.mem_cons, List.mem_singleton, List.not_mem_nil,
      or_false] at h
    refine ⟨_, _, if_pos ?_⟩
    tauto

/-! ### C4: the rewriting of decimal type names -/

theorem normalizeType_decimal_append (s : GoString) (hs : s ≠ []) :
    normalizeType (lit "decimal" ++ s) = lit "decimal" := by
  have hlen : (lit "decimal").length = 7 := rfl
  have hpos : 0 < s.length := List.length_pos.mpr hs
  have hgt : (lit "decimal" ++ s).length > 7 := by
    rw [List.length_append, hlen]; omega
  have htake : (lit "decimal" ++ s).take 7 = lit "decimal" := List.take_left' hlen
  simp only [normalizeType]
  rw [if_pos ⟨hgt, htake⟩]

theorem normalizeType_eq_self_or_decimal (athenaType : GoString) :
    (normalizeType athenaType = lit "decimal"
        ∧ ∃ s, s ≠ [] ∧ athenaType = lit "decimal" ++ s)
    ∨ (normalizeType athenaType = athenaType
        ∧ ¬ ∃ s, s ≠ [] ∧ athenaType = lit "decimal" ++ s) := by
  by_cases h : athenaType.length > 7 ∧ athenaType.take 7 = lit "decimal"
  · left
    refine ⟨by simp only [normalizeType]; rw [if_pos h], athenaType.drop 7, ?_, ?_⟩
    · intro hnil
      have := List.drop_eq_nil_iff.mp hnil
      omega
    · rw [← h.2, List.take_append_drop]
  · right
    refine ⟨by simp only [normalizeType]; rw [if_neg h], ?_⟩
    rintro ⟨s, hs, rfl⟩
    apply h
    have hlen : (lit "decimal").length = 7 := rfl
    have hpos : 0 < s.length := List.length_pos.mpr hs
    refine ⟨by rw [List.length_append, hlen]; omega, List.take_left' hlen⟩

/-- The result of `convertValue` depends on the type name only through its
rewriting by `normalizeType`. -/
theorem convertValue_congr_normalizeType (lib : Stdlib) (t1 t2 : GoString)
    (rawValue : Option GoString) (h : normalizeType t1 = normalizeType t2) :
    convertValue lib t1 rawValue = convertValue lib t2 rawValue := by
  cases rawValue with
  | none => rfl
  | some val => simp only [convertValue, h]

theorem normalizeType_idem (athenaType : GoString) :
    normalizeType (normalizeType athenaType) = normalizeType athenaType := by
  rcases normalizeType_eq_self_or_decimal athenaType with ⟨h, _⟩ | ⟨h, _⟩
  · rw [h]; rfl
  · rw [h, h]

/-- Claim C4 as stated fails at the type name `decimals`: it is not the
literal `decimal` followed by a parenthesized clause, yet it does not pass
through unchanged: it is rewritten to the tag `decimal`. -/
theorem normalizeType_decimals_is_rewritten :
    isParameterizedDecimal (lit "decimals") = false
    ∧ normalizeType (lit "decimals") ≠ lit "decimals"
    ∧ normalizeType (lit "decimals") = lit "decimal" := by
  decide

/-- Claim C4, amended: the rewriting inside `convertValue` turns a type name
into the tag `decimal` exactly when the name is the literal `decimal` followed
by at least one more byte, whatever that byte is; the parameterized names
`decimal(...)` are of that kind.  Every other name passes through unchanged.
The name is then dispatched under the result of the rewriting. -/
theorem normalizeType_rewrites_decimal_names (lib : Stdlib) (athenaType : GoString) :
    ((∃ s, s ≠ [] ∧ athenaType = lit "decimal" ++ s) →
        normalizeType athenaType = lit "decimal")
    ∧ ((¬ ∃ s, s ≠ [] ∧ athenaType = lit "decimal" ++ s) →
        normalizeType athenaType = athenaType)
    ∧ (isParameterizedDecimal athenaType = true →
        ∃ s, s ≠ [] ∧ athenaType = lit "decimal" ++ s)
    ∧ (∀ rawValue, convertValue lib athenaType rawValue
        = convertValue lib (normalizeType athenaType) rawValue) := by
  refine ⟨?_, ?_, ?_, ?_⟩
  · rintro ⟨s, hs, rfl⟩
    exact normalizeType_decimal_append s hs
  · intro h
    rcases normalizeType_eq_self_or_decimal athenaType with ⟨_, h2⟩ | ⟨h1, _⟩
    · exact absurd h2 h
    · exact h1
  · intro h
    unfold isParameterizedDecimal at h
    split at h
    · rename_i clause hdrop
      simp only [Bool.and_eq_true, decide_eq_true_eq] at h
      refine ⟨40 :: clause, by simp, ?_⟩
      rw [← h.1, ← hdrop, List.take_append_drop]
    · exact absurd h (by simp)
  · intro rawValue
    exact convertValue_congr_normalizeType lib _ _ rawValue (normalizeType_idem athenaType).symm

theorem normalizeType_rewrites_decimal_names_witness :
    isParameterizedDecimal (lit "decimal(10,2)") = true
    ∧ normalizeType (lit "decimal(10,2)") = lit "decimal"
    ∧ (¬ ∃ s, s ≠ [] ∧ lit "deci" = lit "decimal" ++ s)
    ∧ normalizeType (lit "deci") = lit "deci" :=
  have hne : ¬ ∃ s, s ≠ [] ∧ lit "deci" = lit "decimal" ++ s := by
    rintro ⟨s, _, h⟩
    have := congrArg List.length h
    rw [List.length_append] at this
    have h1 : (lit "deci").length = 4 := rfl
    have h2 : (lit "decimal").length = 7 := rfl
    omega
  ⟨by decide,
   (normalizeType_rewrites_decimal_names rejectingLib (lit "decimal(10,2)")).1
     ((normalizeType_rewrites_decimal_names rejectingLib (lit "decimal(10,2)")).2.2.1
       (by decide)),
   hne,
   (normalizeType_rewrites_decimal_names rejectingLib (lit "deci")).2.1 hne⟩

/-! ### C5: decimal, with or without parameters, decodes as double -/

/-- Claim C5: for every precision `p` and scale `s` and every raw value
(present or absent), `convertValue` under `decimal(p,s)` returns the same
result as under `decimal`, which is the result under `double`. -/
theorem decimal_params_decode_as_double (lib : Stdlib) (p s : Nat)
    (rawValue : Option GoString) :
    convertValue lib
        (lit "decimal(" ++ lit (toString p) ++ lit "," ++ lit (toString s) ++ lit ")")
        rawValue
      = convertValue lib (lit "decimal") rawValue
    ∧ convertValue lib (lit "decimal") rawValue
      = convertValue lib (lit "double") rawValue := by
  constructor
  · apply convertValue_congr_normalizeType
    have hsplit : lit "decimal(" = lit "decimal" ++ [40] := rfl
    rw [hsplit]
    simp only [List.append_assoc]
    rw [normalizeType_decimal_append _ (by simp)]
    rfl
  · cases rawValue with
    | none => rfl
    | some val => rfl

/-! ### `strconv.ParseInt` against the reading of integer literals -/

theorem le_foldl_digitStep (ds : List UInt8) : ∀ a, a ≤ ds.foldl digitStep a := by
  induction ds with
  | nil => intro a; exact Nat.le_refl _
  | cons b ds ih =>
    intro a
    have := ih (digitStep a b)
    simp only [List.foldl_cons]
    unfold digitStep at this ⊢
    omega

theorem isDigit_iff (b : UInt8) : isDigit b = true ↔ 48 ≤ b.toNat ∧ b.toNat ≤ 57 := by
  simp [isDigit]

/-- On a run of digits whose value fits, the loop of `ParseUint` returns that
value. -/
theorem parseUintLoop_digits (maxVal : Nat) (hmax : maxVal < 2 ^ 64) :
    ∀ (ds : List UInt8) (n : Nat), (∀ b ∈ ds, isDigit b = true) →
      ds.foldl digitStep n ≤ maxVal →
      strconv.parseUintLoop (strconv.maxUint64 / 10 + 1) maxVal ds n
        = (ds.foldl digitStep n, none) := by
  have hcut : strconv.maxUint64 / 10 + 1 = 1844674407370955162 := by decide
  rw [hcut]
  intro ds
  induction ds with
  | nil => intro n _ _; rfl
  | cons b ds ih =>
    intro n hdig hval
    have hb := (isDigit_iff b).mp (hdig b (List.mem_cons_self _ _))
    have hrest : ∀ x ∈ ds, isDigit x = true := fun x hx => hdig x (List.mem_cons_of_mem _ hx)
    simp only [List.foldl_cons] at hval ⊢
    have hge := le_foldl_digitStep ds (digitStep n b)
    have hstep : digitStep n b = 10 * n + (b.toNat - 48) := rfl
    have h1 : (n * 10 % 2 ^ 64 + (b.toNat - 48)) % 2 ^ 64 = digitStep n b := by
      rw [hstep]; omega
    have h2 : n * 10 % 2 ^ 64 = n * 10 := by omega
    simp only [strconv.parseUintLoop, hb, and_self, if_true]
    rw [if_neg (by omega), if_neg (by omega), h1, if_neg (by rw [h2, hstep]; omega)]
    exact ih _ hrest hval

/-- When the loop of `ParseUint` ends without an error, it has read a run of
digits and returns the value of the run, which is at most `maxVal`. -/
theorem parseUintLoop_none (maxVal : Nat) :
    ∀ (ds : List UInt8) (n r : Nat),
      strconv.parseUintLoop (strconv.maxUint64 / 10 + 1) maxVal ds n = (r, none) →
      (∀ b ∈ ds, isDigit b = true) ∧ r = ds.foldl digitStep n ∧ (n ≤ maxVal → r ≤ maxVal) := by
  have hcut : strconv.maxUint64 / 10 + 1 = 1844674407370955162 := by decide
  rw [hcut]
  intro ds
  induction ds with
  | nil =>
    intro n r h
    simp only [strconv.parseUintLoop, Prod.mk.injEq, and_true] at h
    subst h
    simp
  | cons b ds ih =>
    intro n r h
    simp only [strconv.parseUintLoop] at h
    by_cases hb : 48 ≤ b.toNat ∧ b.toNat ≤ 57
    · simp only [hb, and_self, if_true] at h
      by_cases hd : b.toNat - 48 ≥ 10
      · omega
      rw [if_neg hd] at h
      by_cases hn : n ≥ 1844674407370955162
      · rw [if_pos hn] at h; cases h
      rw [if_neg hn] at h
      by_cases hov : (n * 10 % 2 ^ 64 + (b.toNat - 48)) % 2 ^ 64 < n * 10 % 2 ^ 64
          ∨ (n * 10 % 2 ^ 64 + (b.toNat - 48)) % 2 ^ 64 > maxVal
      · rw [if_pos hov] at h; cases h
      rw [if_neg hov] at h
      have hstep : digitStep n b = 10 * n + (b.toNat - 48) := rfl
      have h1 : (n * 10 % 2 ^ 64 + (b.toNat - 48)) % 2 ^ 64 = digitStep n b := by
        rw [hstep]; omega
      rw [h1] at h hov
      obtain ⟨hdig, hr, hle⟩ := ih _ _ h
      refine ⟨?_, by simpa using hr, fun _ => hle (by omega)⟩
      intro x hx
      rcases List.mem_cons.mp hx with rfl | hx
      · exact (isDigit_iff _).mpr hb
      · exact hdig x hx
    · rw [if_neg hb] at h
      by_cases hl : 97 ≤ strconv.lower b.toNat ∧ strconv.lower b.toNat ≤ 122
      · simp only [hl, and_self, if_true] at h
        rw [if_pos (by omega)] at h
        cases h
      · rw [if_neg hl] at h
        cases h

/-- When the loop of `ParseUint` ends with an error, the error is a syntax
error, or it is a range error and the number returned is `maxVal`. -/
theorem parseUintLoop_some (cutoff maxVal : Nat) :
    ∀ (ds : List UInt8) (n r : Nat) (k : strconv.ErrKind),
      strconv.parseUintLoop cutoff maxVal ds n = (r, some k) →
      k = .ErrSyntax ∨ (k = .ErrRange ∧ r = maxVal) := by
  intro ds
  induction ds with
  | nil => intro n r k h; simp [strconv.parseUintLoop] at h
  | cons b ds ih =>
    intro n r k h
    simp only [strconv.parseUintLoop] at h
    split at h
    · simp only [Prod.mk.injEq, Option.some.injEq] at h
      exact Or.inl h.2.symm
    · split at h
      · simp only [Prod.mk.injEq, Option.some.injEq] at h
        exact Or.inl h.2.symm
      · split at h
        · simp only [Prod.mk.injEq, Option.some.injEq] at h
          exact Or.inr ⟨h.2.symm, h.1.symm⟩
        · split at h
          · simp only [Prod.mk.injEq, Option.some.injEq] at h
            exact Or.inr ⟨h.2.symm, h.1.symm⟩
          · exact ih _ _ _ h

/-- At the three widths `convertValue` asks for, `ParseUint` on a non-empty
text is the digit loop with `maxVal = 2^w - 1`. -/
theorem ParseUint_eq_loop (w : Nat) (hw : w = 16 ∨ w = 32 ∨ w = 64) (s : GoString)
    (hs : s ≠ []) :
    strconv.ParseUint s w
      = ((strconv.parseUintLoop (strconv.maxUint64 / 10 + 1) (2 ^ w - 1) s 0).1,
         (strconv.parseUintLoop (strconv.maxUint64 / 10 + 1) (2 ^ w - 1) s 0).2.map
           (fun k => ⟨strconv.fnParseUint, s, k⟩)) := by
  have hmax : ∀ b, (b = 16 ∨ b = 32 ∨ b = 64) →
      (2 ^ b % 2 ^ 64 + 2 ^ 64 - 1) % 2 ^ 64 = 2 ^ b - 1 := by
    intro b hb
    rcases hb with rfl | rfl | rfl <;> decide
  have h0 : w ≠ 0 := by omega
  have h64 : ¬ (w ≠ 0 ∧ w > 64) := by omega
  simp only [strconv.ParseUint]
  rw [if_neg hs, if_neg h64, if_neg h0, hmax w hw]
  cases hloop : strconv.parseUintLoop (strconv.maxUint64 / 10 + 1) (2 ^ w - 1) s 0 with
  | mk n k =>
    cases k <;> rfl

theorem two_pow_width_lt (w : Nat) (hw : w = 16 ∨ w = 32 ∨ w = 64) : 2 ^ w - 1 < 2 ^ 64 := by
  rcases hw with rfl | rfl | rfl <;> decide

theorem ParseUint_digits (w : Nat) (hw : w = 16 ∨ w = 32 ∨ w = 64) (ds : List UInt8)
    (hne : ds ≠ []) (hdig : ∀ b ∈ ds, isDigit b = true) (hval : digitsValue ds ≤ 2 ^ w - 1) :
    strconv.ParseUint ds w = (digitsValue ds, none) := by
  rw [ParseUint_eq_loop w hw ds hne,
    parseUintLoop_digits (2 ^ w - 1) (two_pow_width_lt w hw) ds 0 hdig hval]
  rfl

theorem ParseUint_none (w : Nat) (hw : w = 16 ∨ w = 32 ∨ w = 64) (ds : List UInt8) (r : Nat)
    (h : strconv.ParseUint ds w = (r, none)) :
    ds ≠ [] ∧ (∀ b ∈ ds, isDigit b = true) ∧ r = digitsValue ds ∧ r ≤ 2 ^ w - 1 := by
  by_cases hne : ds = []
  · subst hne
    simp [strconv.ParseUint] at h
  · rw [ParseUint_eq_loop w hw ds hne] at h
    cases hloop : strconv.parseUintLoop (strconv.maxUint64 / 10 + 1) (2 ^ w - 1) ds 0 with
    | mk n k =>
      rw [hloop] at h
      cases k with
      | some k => simp at h
      | none =>
        simp only [Option.map_none', Prod.mk.injEq, and_true] at h
        subst h
        obtain ⟨h1, h2, h3⟩ := parseUintLoop_none (2 ^ w - 1) ds 0 n hloop
        exact ⟨hne, h1, h2, h3 (Nat.zero_le _)⟩

theorem ParseUint_some (w : Nat) (hw : w = 16 ∨ w = 32 ∨ w = 64) (ds : List UInt8) (r : Nat)
    (e : strconv.NumError) (h : strconv.ParseUint ds w = (r, some e)) :
    e.Err = .ErrSyntax ∨ (e.Err = .ErrRange ∧ r = 2 ^ w - 1) := by
  by_cases hne : ds = []
  · subst hne
    simp only [strconv.ParseUint, if_true, Prod.mk.injEq, Option.some.injEq] at h
    left
    rw [← h.2]
    rfl
  · rw [ParseUint_eq_loop w hw ds hne] at h
    cases hloop : strconv.parseUintLoop (strconv.maxUint64 / 10 + 1) (2 ^ w - 1) ds 0 with
    | mk n k =>
      rw [hloop] at h
      cases k with
      | none => simp at h
      | some k =>
        simp only [Option.map_some', Prod.mk.injEq, Option.some.injEq] at h
        obtain ⟨h1, h2⟩ := h
        subst h1 h2
        exact parseUintLoop_some _ _ ds 0 n k hloop

theorem ParseInt_cons (b : UInt8) (t : GoString) (bitSize : Nat) :
    strconv.ParseInt (b :: t) bitSize
      = parseIntSigned (b :: t)
          (if b = 43 then (false, t) else if b = 45 then (true, t) else (false, b :: t))
          bitSize := rfl

theorem parseIntSigned_digits (w : Nat) (hw : w = 16 ∨ w = 32 ∨ w = 64) (s0 ds : GoString)
    (neg : Bool) (hne : ds ≠ []) (hdig : ∀ b ∈ ds, isDigit b = true)
    (hrange : if neg then digitsValue ds ≤ 2 ^ (w - 1) else digitsValue ds < 2 ^ (w - 1)) :
    parseIntSigned s0 (neg, ds) w
      = (if neg then -(digitsValue ds : Int) else (digitsValue ds : Int), none) := by
  have hU := ParseUint_digits w hw ds hne hdig (by
    rcases hw with rfl | rfl | rfl <;> cases neg <;> simp at hrange ⊢ <;> omega)
  simp only [parseIntSigned, hU, Option.filter]
  generalize digitsValue ds = m at hrange ⊢
  rcases hw with rfl | rfl | rfl <;> cases neg <;>
    simp only [Bool.false_eq_true, Bool.true_eq_false, if_false, if_true, true_and, false_and, and_true,
      strconv.int64OfUint64, strconv.negInt64, Nat.reducePow, Nat.reduceSub, Nat.reduceMod,
      OfNat.ofNat_ne_zero, ge_iff_le, gt_iff_lt] at hrange ⊢
  all_goals split_ifs
  all_goals first
    | omega
    | (simp only [Prod.mk.injEq, and_true]; omega)

theorem parseIntSigned_none (w : Nat) (hw : w = 16 ∨ w = 32 ∨ w = 64) (s0 ds : GoString)
    (neg : Bool) (r : Int) (h : parseIntSigned s0 (neg, ds) w = (r, none)) :
    ds ≠ [] ∧ (∀ b ∈ ds, isDigit b = true)
    ∧ r = (if neg then -(digitsValue ds : Int) else (digitsValue ds : Int))
    ∧ (if neg then digitsValue ds ≤ 2 ^ (w - 1) else digitsValue ds < 2 ^ (w - 1)) := by
  cases hU : strconv.ParseUint ds w with
  | mk un err =>
    cases err with
    | none =>
      obtain ⟨h1, h2, h3, h4⟩ := ParseUint_none w hw ds un hU
      subst h3
      refine ⟨h1, h2, ?_⟩
      simp only [parseIntSigned, hU, Option.filter] at h
      generalize digitsValue ds = m at h h4 ⊢
      rcases hw with rfl | rfl | rfl <;> cases neg <;>
        simp only [Bool.false_eq_true, Bool.true_eq_false, if_false, if_true, true_and,
          false_and, and_true,
          strconv.int64OfUint64, strconv.negInt64, Nat.reducePow, Nat.reduceSub, Nat.reduceMod,
          OfNat.ofNat_ne_zero, ge_iff_le, gt_iff_lt] at h h4 ⊢
      all_goals split_ifs at h
      all_goals simp only [Prod.mk.injEq, and_true, reduceCtorEq, and_false] at h
      all_goals omega
    | some e =>
      exfalso
      rcases ParseUint_some w hw ds un e hU with he | ⟨he, hun⟩
      · simp [parseIntSigned, hU, Option.filter, he] at h
      · subst hun
        simp only [parseIntSigned, hU, Option.filter, he] at h
        rcases hw with rfl | rfl | rfl <;> cases neg <;>
          simp [strconv.IntSize] at h

/-- Every error `ParseInt` returns names `ParseInt` and carries the whole
input text. -/
theorem parseIntSigned_some (s0 : GoString) (signed : Bool × GoString) (bitSize : Nat)
    (r : Int) (e : strconv.NumError) (h : parseIntSigned s0 signed bitSize = (r, some e)) :
    e.Func = strconv.fnParseInt ∧ e.Num = s0 := by
  simp only [parseIntSigned] at h
  split at h
  · simp only [Prod.mk.injEq, Option.some.injEq] at h
    rw [← h.2]
    exact ⟨rfl, rfl⟩
  · split_ifs at h <;>
      simp only [Prod.mk.injEq, Option.some.injEq, reduceCtorEq, and_false] at h <;>
      (rw [← h.2]; exact ⟨rfl, rfl⟩)

theorem ParseInt_some (s : GoString) (bitSize : Nat) (r : Int) (e : strconv.NumError)
    (h : strconv.ParseInt s bitSize = (r, some e)) :
    e.Func = strconv.fnParseInt ∧ e.Num = s := by
  cases s with
  | nil =>
    simp only [strconv.ParseInt, Prod.mk.injEq, Option.some.injEq] at h
    rw [← h.2]
    exact ⟨rfl, rfl⟩
  | cons b t =>
    rw [ParseInt_cons] at h
    exact parseIntSigned_some _ _ _ r e h

theorem unsignedLiteral_eq_some (ds : List UInt8) (m : Nat) :
    unsignedLiteral? ds = some m
      ↔ ds ≠ [] ∧ (∀ b ∈ ds, isDigit b = true) ∧ m = digitsValue ds := by
  unfold unsignedLiteral?
  by_cases h : ds ≠ [] ∧ ds.all isDigit = true
  · rw [if_pos h]
    simp only [Option.some.injEq]
    rw [List.all_eq_true] at h
    constructor
    · intro hm; exact ⟨h.1, h.2, hm.symm⟩
    · intro hm; exact hm.2.2.symm
  · rw [if_neg h]
    rw [List.all_eq_true] at h
    constructor
    · intro hm; cases hm
    · intro hm; exact absurd ⟨hm.1, hm.2.1⟩ h

/-- The sign test of `ParseInt` and the reading of a literal agree: a literal
denotes `n` exactly when the text after the sign is a run of digits of value
`m` and `n` is `m` or `-m` according to the sign. -/
theorem intLiteral_cons (b : UInt8) (t : GoString) (n : Int) :
    intLiteral? (b :: t) = some n ↔
      ∃ m, unsignedLiteral?
            (if b = 43 then (false, t) else if b = 45 then (true, t) else (false, b :: t)).2
          = some m
        ∧ n = (if (if b = 43 then (false, t) else if b = 45 then (true, t)
                    else (false, b :: t)).1 = true
               then -Int.ofNat m else Int.ofNat m) := by
  have h43 : ¬ ((45 : UInt8) = 43) := by decide
  by_cases h1 : b = 43
  · subst h1
    simp only [intLiteral?, if_true, Option.map_eq_some', Bool.false_eq_true, if_false]
    constructor
    · rintro ⟨m, hm, rfl⟩; exact ⟨m, hm, rfl⟩
    · rintro ⟨m, hm, rfl⟩; exact ⟨m, hm, rfl⟩
  · by_cases h2 : b = 45
    · subst h2
      simp only [intLiteral?, h43, if_true, if_false, Option.map_eq_some']
      constructor
      · rintro ⟨m, hm, rfl⟩; exact ⟨m, hm, rfl⟩
      · rintro ⟨m, hm, rfl⟩; exact ⟨m, hm, rfl⟩
    · simp only [intLiteral?, h1, h2, if_false, Option.map_eq_some', Bool.false_eq_true]
      constructor
      · rintro ⟨m, hm, rfl⟩; exact ⟨m, hm, rfl⟩
      · rintro ⟨m, hm, rfl⟩; exact ⟨m, hm, rfl⟩

/-- A literal that denotes an integer of the asked width is parsed to it. -/
theorem ParseInt_of_intLiteral (w : Nat) (hw : w = 16 ∨ w = 32 ∨ w = 64) (v : GoString)
    (n : Int) (h : intLiteral? v = some n) (hlo : -(2 : Int) ^ (w - 1) ≤ n)
    (hhi : n ≤ (2 : Int) ^ (w - 1) - 1) :
    strconv.ParseInt v w = (n, none) := by
  cases v with
  | nil => simp [intLiteral?] at h
  | cons b t =>
    rw [ParseInt_cons]
    obtain ⟨m, hm, hn⟩ := (intLiteral_cons b t n).mp h
    generalize (if b = 43 then (false, t) else if b = 45 then (true, t)
      else (false, b :: t)) = signed at hm hn ⊢
    obtain ⟨neg, ds⟩ := signed
    obtain ⟨hne, hdig, hval⟩ := (unsignedLiteral_eq_some ds m).mp hm
    subst hval
    simp only at hn
    have hrange : if neg then digitsValue ds ≤ 2 ^ (w - 1)
        else digitsValue ds < 2 ^ (w - 1) := by
      generalize digitsValue ds = m at hn ⊢
      subst hn
      rcases hw with rfl | rfl | rfl <;> cases neg <;>
        simp only [Bool.false_eq_true, if_false, if_true, Nat.reduceSub, Nat.reducePow,
          Int.reducePow, Int.ofNat_eq_coe] at hlo hhi ⊢ <;> omega
    rw [parseIntSigned_digits w hw (b :: t) ds neg hne hdig hrange, hn]
    rfl

/-- When `ParseInt` returns no error, the text is a literal that denotes the
number returned, and the number fits the asked width. -/
theorem intLiteral_of_ParseInt (w : Nat) (hw : w = 16 ∨ w = 32 ∨ w = 64) (v : GoString)
    (r : Int) (h : strconv.ParseInt v w = (r, none)) :
    intLiteral? v = some r ∧ -(2 : Int) ^ (w - 1) ≤ r ∧ r ≤ (2 : Int) ^ (w - 1) - 1 := by
  cases v with
  | nil => simp [strconv.ParseInt] at h
  | cons b t =>
    rw [ParseInt_cons] at h
    rw [intLiteral_cons]
    generalize (if b = 43 then (false, t) else if b = 45 then (true, t)
      else (false, b :: t)) = signed at h ⊢
    obtain ⟨neg, ds⟩ := signed
    obtain ⟨hne, hdig, hr, hrange⟩ := parseIntSigned_none w hw (b :: t) ds neg r h
    refine ⟨⟨digitsValue ds, (unsignedLiteral_eq_some ds _).mpr ⟨hne, hdig, rfl⟩, hr⟩, ?_⟩
    generalize digitsValue ds = m at hr hrange ⊢
    subst hr
    rcases hw with rfl | rfl | rfl <;> cases neg <;>
      simp only [Bool.false_eq_true, if_false, if_true, Nat.reduceSub, Nat.reducePow,
        Int.reducePow, Int.ofNat_eq_coe] at hrange ⊢ <;> omega

/-! ### C6 and C7: the integer tags -/

theorem integerTags_width (tag : GoString) (w : Nat) (h : (tag, w) ∈ integerTags) :
    w = 16 ∨ w = 32 ∨ w = 64 := by
  simp only [integerTags, List.mem_cons, Prod.mk.injEq, List.mem_singleton, List.not_mem_nil,
    or_false] at h
  omega

/-- Under an integer tag, `convertValue` returns what `strconv.ParseInt`
returns at the width of the tag. -/
theorem convertValue_integer_eq (lib : Stdlib) (tag : GoString) (w : Nat) (v : GoString)
    (h : (tag, w) ∈ integerTags) :
    convertValue lib tag (some v)
      = .ret (.int64 (strconv.ParseInt v w).1) ((strconv.ParseInt v w).2.map .numError) := by
  simp only [integerTags, List.mem_cons, Prod.mk.injEq, List.mem_singleton, List.not_mem_nil,
    or_false] at h
  rcases h with ⟨h1, h2⟩ | ⟨h1, h2⟩ | ⟨h1, h2⟩ | ⟨h1, h2⟩ <;> subst h1 h2 <;> rfl

/-- Claim C6: for each integer tag with its width `w` (smallint 16, integer
and int 32, bigint 64) and every literal made of an optional sign and one or
more decimal digits that denotes an integer `n` with
`-2^(w-1) <= n <= 2^(w-1) - 1`, `convertValue` returns the integer `n` with no
error. -/
theorem convertValue_integer_literal (lib : Stdlib) (tag : GoString) (w : Nat)
    (v : GoString) (n : Int) (htag : (tag, w) ∈ integerTags)
    (hlit : intLiteral? v = some n)
    (hlo : -(2 : Int) ^ (w - 1) ≤ n) (hhi : n ≤ (2 : Int) ^ (w - 1) - 1) :
    convertValue lib tag (some v) = .ret (.int64 n) none := by
  rw [convertValue_integer_eq lib tag w v htag,
    ParseInt_of_intLiteral w (integerTags_width tag w htag) v n hlit hlo hhi]
  rfl

theorem convertValue_integer_literal_witness :
    convertValue rejectingLib (lit "bigint") (some (lit "42")) = .ret (.int64 42) none
    ∧ convertValue rejectingLib (lit "smallint") (some (lit "-32768"))
      = .ret (.int64 (-32768)) none
    ∧ convertValue rejectingLib (lit "int") (some (lit "+0002147483647"))
      = .ret (.int64 2147483647) none
    ∧ convertValue rejectingLib (lit "bigint") (some (lit "-9223372036854775808"))
      = .ret (.int64 (-9223372036854775808)) none :=
  ⟨convertValue_integer_literal rejectingLib (lit "bigint") 64 (lit "42") 42
      (by decide) (by decide) (by decide) (by decide),
   convertValue_integer_literal rejectingLib (lit "smallint") 16 (lit "-32768") (-32768)
      (by decide) (by decide) (by decide) (by decide),
   convertValue_integer_literal rejectingLib (lit "int") 32 (lit "+0002147483647") 2147483647
      (by decide) (by decide) (by decide) (by decide),
   convertValue_integer_literal rejectingLib (lit "bigint") 64 (lit "-9223372036854775808")
      (-9223372036854775808) (by decide) (by decide) (by decide) (by decide)⟩

/-- Claim C7: for each integer tag with its width `w` and every present text
that is not a literal (an optional sign followed by one or more decimal
digits) or that denotes an integer outside `[-2^(w-1), 2^(w-1) - 1]`,
`convertValue` returns normally with an error, the `*strconv.NumError` of
`ParseInt` that carries the text; it does not panic. -/
theorem convertValue_integer_malformed (lib : Stdlib) (tag : GoString) (w : Nat)
    (v : GoString) (htag : (tag, w) ∈ integerTags)
    (hbad : intLiteral? v = none
      ∨ ∃ n, intLiteral? v = some n ∧ (n < -(2 : Int) ^ (w - 1) ∨ (2 : Int) ^ (w - 1) - 1 < n)) :
    ∃ r e, convertValue lib tag (some v) = .ret (.int64 r) (some (.numError e))
      ∧ e.Func = strconv.fnParseInt ∧ e.Num = v := by
  rw [convertValue_integer_eq lib tag w v htag]
  cases hP : strconv.ParseInt v w with
  | mk r err =>
    cases err with
    | some e => exact ⟨r, e, rfl, ParseInt_some v w r e hP⟩
    | none =>
      exfalso
      obtain ⟨h1, h2, h3⟩ := intLiteral_of_ParseInt w (integerTags_width tag w htag) v r hP
      rcases hbad with hnone | ⟨n, hn, hout⟩
      · rw [hnone] at h1; cases h1
      · rw [hn] at h1
        cases h1
        omega

theorem convertValue_integer_malformed_witness :
    (∃ r e, convertValue rejectingLib (lit "smallint") (some (lit "99999"))
        = .ret (.int64 r) (some (.numError e))
      ∧ e.Func = strconv.fnParseInt ∧ e.Num = lit "99999")
    ∧ (∃ r e, convertValue rejectingLib (lit "integer") (some (lit ""))
        = .ret (.int64 r) (some (.numError e))
      ∧ e.Func = strconv.fnParseInt ∧ e.Num = lit "")
    ∧ (∃ r e, convertValue rejectingLib (lit "int") (some (lit " 5"))
        = .ret (.int64 r) (some (.numError e))
      ∧ e.Func = strconv.fnParseInt ∧ e.Num = lit " 5")
    ∧ (∃ r e, convertValue rejectingLib (lit "bigint") (some (lit "1.0"))
        = .ret (.int64 r) (some (.numError e))
      ∧ e.Func = strconv.fnParseInt ∧ e.Num = lit "1.0")
    ∧ (∃ r e, convertValue rejectingLib (lit "bigint") (some (lit "0x10"))
        = .ret (.int64 r) (some (.numError e))
      ∧ e.Func = strconv.fnParseInt ∧ e.Num = lit "0x10") :=
  ⟨convertValue_integer_malformed rejectingLib (lit "smallint") 16 (lit "99999") (by decide)
      (Or.inr ⟨99999, by decide, Or.inr (by decide)⟩),
   convertValue_integer_malformed rejectingLib (lit "integer") 32 (lit "") (by decide)
      (Or.inl (by decide)),
   convertValue_integer_malformed rejectingLib (lit "int") 32 (lit " 5") (by decide)
      (Or.inl (by decide)),
   convertValue_integer_malformed rejectingLib (lit "bigint") 64 (lit "1.0") (by decide)
      (Or.inl (by decide)),
   convertValue_integer_malformed rejectingLib (lit "bigint") 64 (lit "0x10") (by decide)
      (Or.inl (by decide))⟩

/-- The code on the literals the specification names: `smallint` on `99999`
returns the clamped number 32767 next to a range error; `bigint` on `1.0`
returns 0 next to a syntax error. -/
theorem convertValue_integer_errors_evaluated :
    convertValue rejectingLib (lit "smallint") (some (lit "99999"))
      = .ret (.int64 32767) (some (.numError ⟨lit "ParseInt", lit "99999", .ErrRange⟩))
    ∧ convertValue rejectingLib (lit "bigint") (some (lit "1.0"))
      = .ret (.int64 0) (some (.numError ⟨lit "ParseInt", lit "1.0", .ErrSyntax⟩))
    ∧ convertValue rejectingLib (lit "smallint") (some (lit "-99999"))
      = .ret (.int64 (-32768)) (some (.numError ⟨lit "ParseInt", lit "-99999", .ErrRange⟩)) := by
  decide


/-! ### C8: boolean -/

theorem boolean_case_eq (lib : Stdlib) (val : GoString) :
    convertValue lib (lit "boolean") (some val)
      = if val = lit "true" then .ret (.bool true) none
        else if val = lit "false" then .ret (.bool false) none
        else .ret .nil (some (.errorf (lit "cannot parse '" ++ val ++ lit "' as boolean"))) := by
  rfl

/-- Claim C8: under tag `boolean`, on a present literal, `convertValue` returns
true with no error exactly for the text `true`, false with no error exactly
for the text `false`, and for every other text the nil value together with an
error (a normal return, not a panic). -/
theorem convertValue_boolean (lib : Stdlib) (val : GoString) :
    (convertValue lib (lit "boolean") (some val) = .ret (.bool true) none ↔ val = lit "true")
    ∧ (convertValue lib (lit "boolean") (some val) = .ret (.bool false) none
        ↔ val = lit "false")
    ∧ (val ≠ lit "true" → val ≠ lit "false" →
        convertValue lib (lit "boolean") (some val)
          = .ret .nil
              (some (.errorf (lit "cannot parse '" ++ val ++ lit "' as boolean")))) := by
  rw [boolean_case_eq]
  by_cases h1 : val = lit "true"
  · subst h1
    refine ⟨?_, ?_, ?_⟩
    · simp
    · rw [if_pos rfl]
      constructor
      · intro h; cases h
      · intro h; exact absurd h (by decide)
    · intro h; exact absurd rfl h
  · rw [if_neg h1]
    by_cases h2 : val = lit "false"
    · subst h2
      refine ⟨?_, ?_, ?_⟩
      · rw [if_pos rfl]
        constructor
        · intro h; cases h
        · intro h; exact absurd h h1
      · simp
      · intro _ h; exact absurd rfl h
    · rw [if_neg h2]
      refine ⟨?_, ?_, ?_⟩
      · constructor
        · intro h; cases h
        · intro h; exact absurd h h1
      · constructor
        · intro h; cases h
        · intro h; exact absurd h h2
      · intro _ _; rfl

theorem convertValue_boolean_witness :
    lit "yes" ≠ lit "true" ∧ lit "yes" ≠ lit "false"
    ∧ convertValue rejectingLib (lit "boolean") (some (lit "yes"))
      = .ret .nil (some (.errorf (lit "cannot parse 'yes' as boolean")))
    ∧ convertValue rejectingLib (lit "boolean") (some (lit "true")) = .ret (.bool true) none
    ∧ convertValue rejectingLib (lit "boolean") (some (lit "false"))
      = .ret (.bool false) none :=
  ⟨by decide, by decide,
   (convertValue_boolean rejectingLib (lit "yes")).2.2 (by decide) (by decide),
   (convertValue_boolean rejectingLib (lit "true")).1.mpr rfl,
   (convertValue_boolean rejectingLib (lit "false")).2.1.mpr rfl⟩

/-! ### C9: varchar and string -/

/-- Claim C9: under tags `varchar` and `string`, every present raw text (the
empty text and text that reads as a number, a boolean or `\N` included) is
returned as it is, as text, with no error. -/
theorem convertValue_varchar_string (lib : Stdlib) (val : GoString) :
    convertValue lib (lit "varchar") (some val) = .ret (.string val) none
    ∧ convertValue lib (lit "string") (some val) = .ret (.string val) none :=
  ⟨rfl, rfl⟩

/-! ### C10: the pass-through tags -/

/-- Claim C10 as stated fails at the tag `interval year-to-month` of the
specification's list: the `case` of `convertValue` spells the tag
`interval year to month`, and the hyphenated name has no case, so a present
value panics instead of being returned. -/
theorem convertValue_hyphenated_interval_panics :
    lit "interval year-to-month" ∈ specPassThroughTags
    ∧ convertValue rejectingLib (lit "interval year-to-month") (some (lit "1-2"))
      = .panic (.errorf (lit "unknown type \x60interval year-to-month\x60 with value 1-2")) := by
  decide

/-- Claim C10, amended: for every pass-through tag as the code spells it
(`interval year to month` and `interval day to second` written with spaces,
the ten others as in the specification) and every present raw text,
`convertValue` returns exactly that text, with no error; the text is not
inspected. -/
theorem convertValue_pass_through (lib : Stdlib) (tag val : GoString)
    (h : tag ∈ passThroughTags) :
    convertValue lib tag (some val) = .ret (.string val) none := by
  simp only [passThroughTags, List.mem_cons, List.mem_singleton, List.not_mem_nil,
    or_false] at h
  rcases h with h | h | h | h | h | h | h | h | h | h | h | h <;> subst h <;> rfl

theorem convertValue_pass_through_witness :
    lit "interval year to month" ∈ passThroughTags
    ∧ convertValue rejectingLib (lit "interval year to month") (some (lit "not an interval"))
      = .ret (.string (lit "not an interval")) none :=
  ⟨by decide,
   convertValue_pass_through rejectingLib (lit "interval year to month")
     (lit "not an interval") (by decide)⟩

/-! ### The three adapters are one loop -/

theorem getElem?_map_columnInfo (columns : List (Option Column)) (i : Nat) :
    (columns.map (Option.map fun c => ColumnInfo.mk c.Type_))[i]?
      = (columns[i]?).map (Option.map fun c => ColumnInfo.mk c.Type_) := by
  simp

/-- The loop of `convertRowFromTableInfo` is the loop of `convertRow` on the
datums that are absent where the string is `\N`. -/
theorem convertRowFromTableInfoLoop_eq (lib : Stdlib) (columns : List (Option Column)) :
    ∀ (cells : List GoString) (i : Nat) (ret : List Value),
      convertRowFromTableInfoLoop lib columns i cells ret
        = convertRowLoop lib (columns.map (Option.map fun c => ColumnInfo.mk c.Type_)) i
            (cells.map fun s => some ⟨if s = lit "\\N" then none else some s⟩) ret := by
  intro cells
  induction cells with
  | nil => intro i ret; rfl
  | cons s cells ih =>
    intro i ret
    simp only [List.map_cons, convertRowFromTableInfoLoop, convertRowLoop,
      getElem?_map_columnInfo, List.length_map]
    cases hc : columns[i]? with
    | none => rfl
    | some c =>
      cases c with
      | none => rfl
      | some col =>
        obtain ⟨ty⟩ := col
        cases ty with
        | none => rfl
        | some t =>
          simp only [Option.map_some']
          have hnull : nullStringResultModeGzipDL = lit "\\N" := rfl
          rw [hnull]
          by_cases hs : s = lit "\\N"
          · simp only [hs, if_true]
            cases convertValue lib t none with
            | panic e => rfl
            | ret v err =>
              cases err with
              | some e => rfl
              | none =>
                simp only
                by_cases hi : i < ret.length
                · rw [if_pos hi, if_pos hi]; exact ih _ _
                · rw [if_neg hi, if_neg hi]
          · simp only [hs, if_false]
            cases convertValue lib t (some s) with
            | panic e => rfl
            | ret v err =>
              cases err with
              | some e => rfl
              | none =>
                simp only
                by_cases hi : i < ret.length
                · rw [if_pos hi, if_pos hi]; exact ih _ _
                · rw [if_neg hi, if_neg hi]

/-- The loop of `convertRowFromCsv` is the loop of `convertRow` on the datums
that are absent where `isNil` is set. -/
theorem convertRowFromCsvLoop_eq (lib : Stdlib) (columns : List (Option ColumnInfo)) :
    ∀ (cells : List downloadField) (i : Nat) (ret : List Value),
      convertRowFromCsvLoop lib columns i cells ret
        = convertRowLoop lib columns i
            (cells.map fun df => some ⟨if df.isNil then none else some df.val⟩) ret := by
  intro cells
  induction cells with
  | nil => intro i ret; rfl
  | cons df cells ih =>
    intro i ret
    simp only [List.map_cons, convertRowFromCsvLoop, convertRowLoop]
    cases hc : columns[i]? with
    | none => rfl
    | some c =>
      cases c with
      | none => rfl
      | some col =>
        obtain ⟨ty⟩ := col
        cases ty with
        | none => rfl
        | some t =>
          simp only
          cases hnil : df.isNil with
          | true =>
            simp only [if_true]
            cases convertValue lib t none with
            | panic e => rfl
            | ret v err =>
              cases err with
              | some e => rfl
              | none =>
                simp only
                by_cases hi : i < ret.length
                · rw [if_pos hi, if_pos hi]; exact ih _ _
                · rw [if_neg hi, if_neg hi]
          | false =>
            simp only [Bool.false_eq_true, if_false]
            cases convertValue lib t (some df.val) with
            | panic e => rfl
            | ret v err =>
              cases err with
              | some e => rfl
              | none =>
                simp only
                by_cases hi : i < ret.length
                · rw [if_pos hi, if_pos hi]; exact ih _ _
                · rw [if_neg hi, if_neg hi]

/-! ### The row loop in terms of the results of its cells -/

theorem take_succ_set (v : Value) : ∀ (ret : List Value) (i : Nat), i < ret.length →
    (ret.set i v).take (i + 1) = ret.take i ++ [v] := by
  intro ret
  induction ret with
  | nil => intro i hi; simp at hi
  | cons a ret ih =>
    intro i hi
    cases i with
    | zero => simp
    | succ i =>
      simp only [List.set_cons_succ, List.take_succ_cons, List.cons_append, List.cons.injEq,
        true_and]
      exact ih i (by simpa using hi)

theorem drop_set_of_lt (v : Value) : ∀ (ret : List Value) (i j : Nat), i < j →
    (ret.set i v).drop j = ret.drop j := by
  intro ret
  induction ret with
  | nil => intro i j _; simp
  | cons a ret ih =>
    intro i j hij
    cases j with
    | zero => omega
    | succ j =>
      cases i with
      | zero => simp
      | succ i =>
        simp only [List.set_cons_succ, List.drop_succ_cons]
        exact ih i j (by omega)

/-- With a typed column for every cell and a slot for every value written,
the loop of `convertRow` from index `i` writes the values of the leading
error-free cells from slot `i` on and ends the way the first other cell
decides. -/
theorem convertRowLoop_eq_results (lib : Stdlib) (columns : List (Option ColumnInfo)) :
    ∀ (raws : List (Option GoString)) (types : List GoString) (i : Nat) (ret : List Value),
      raws.length ≤ types.length →
      (∀ j t, j < raws.length → types[j]? = some t →
        columns[i + j]? = some (some ⟨some t⟩)) →
      i + (okValues (List.zipWith (convertValue lib) types raws)).length ≤ ret.length →
      convertRowLoop lib columns i (datumCells raws) ret
        = (ret.take i ++ okValues (List.zipWith (convertValue lib) types raws)
              ++ ret.drop (i + (okValues (List.zipWith (convertValue lib) types raws)).length),
           firstFailure (List.zipWith (convertValue lib) types raws)) := by
  intro raws
  induction raws with
  | nil =>
    intro types i ret _ _ _
    simp [datumCells, convertRowLoop, okValues, firstFailure]
  | cons r raws ih =>
    intro types i ret hlen hcols hslots
    cases types with
    | nil => simp at hlen
    | cons t types =>
      have hc := hcols 0 t (by simp) (by simp)
      simp only [Nat.add_zero] at hc
      simp only [datumCells, List.map_cons, convertRowLoop, hc, List.zipWith_cons_cons]
      simp only [List.zipWith_cons_cons] at hslots
      cases hres : convertValue lib t r with
      | panic e => simp [okValues, firstFailure]
      | ret v err =>
        cases err with
        | some e => simp [okValues, firstFailure]
        | none =>
          rw [hres] at hslots
          simp only [okValues, List.length_cons] at hslots
          have hi : i < ret.length := by omega
          simp only [hi, if_true, okValues, firstFailure, List.length_cons]
          have hrec := ih types (i + 1) (ret.set i v) (by simpa using hlen)
            (by
              intro j t' hj ht'
              have := hcols (j + 1) t' (by simp; omega) (by simpa using ht')
              rw [show i + 1 + j = i + (j + 1) by omega]
              exact this)
            (by simp only [List.length_set]; omega)
          simp only [datumCells] at hrec
          rw [hrec, take_succ_set v ret i hi, drop_set_of_lt v ret i _ (by omega)]
          simp [Nat.add_assoc, Nat.add_comm 1]

theorem okValues_length_le : ∀ (rs : List Result), (okValues rs).length ≤ rs.length := by
  intro rs
  induction rs with
  | nil => simp [okValues]
  | cons r rs ih =>
    cases r with
    | panic e => simp [okValues]
    | ret v err =>
      cases err with
      | some e => simp [okValues]
      | none => simp only [okValues, List.length_cons]; omega

/-- Below the length of `okValues` every result is `(v, nil)` with `v` the
value at the same index. -/
theorem okValues_getElem? : ∀ (rs : List Result) (j : Nat), j < (okValues rs).length →
    ∃ v, (okValues rs)[j]? = some v ∧ rs[j]? = some (.ret v none) := by
  intro rs
  induction rs with
  | nil => intro j hj; simp [okValues] at hj
  | cons r rs ih =>
    intro j hj
    cases r with
    | panic e => simp [okValues] at hj
    | ret v err =>
      cases err with
      | some e => simp [okValues] at hj
      | none =>
        simp only [okValues, List.length_cons] at hj
        cases j with
        | zero => exact ⟨v, by simp [okValues]⟩
        | succ j =>
          obtain ⟨w, h1, h2⟩ := ih j (by omega)
          exact ⟨w, by simpa [okValues] using h1, by simpa using h2⟩

/-- The result at the length of `okValues`, when there is one, is not of the
form `(v, nil)`. -/
theorem okValues_stop : ∀ (rs : List Result) (v : Value),
    rs[(okValues rs).length]? ≠ some (.ret v none) := by
  intro rs
  induction rs with
  | nil => intro v; simp
  | cons r rs ih =>
    intro v
    cases r with
    | panic e => simp [okValues]
    | ret w err =>
      cases err with
      | some e => simp [okValues]
      | none => simpa [okValues] using ih v

theorem firstFailure_eq : ∀ (rs : List Result),
    firstFailure rs
      = match rs[(okValues rs).length]? with
        | none => .ok
        | some (.ret _ none) => .ok
        | some (.ret _ (some err)) => .error err
        | some (.panic e) => .panic (.value e) := by
  intro rs
  induction rs with
  | nil => rfl
  | cons r rs ih =>
    cases r with
    | panic e => simp [okValues, firstFailure]
    | ret w err =>
      cases err with
      | some e => simp [okValues, firstFailure]
      | none => simpa [okValues, firstFailure] using ih

theorem firstFailure_ok_iff (rs : List Result) :
    firstFailure rs = .ok ↔ (okValues rs).length = rs.length := by
  rw [firstFailure_eq]
  have hle := okValues_length_le rs
  constructor
  · intro h
    by_contra hne
    have hlt : (okValues rs).length < rs.length := by omega
    have hget : rs[(okValues rs).length]? = some rs[(okValues rs).length] :=
      List.getElem?_eq_getElem hlt
    rw [hget] at h
    cases hr : rs[(okValues rs).length] with
    | panic e => rw [hr] at h; simp at h
    | ret v err =>
      cases err with
      | some e => rw [hr] at h; simp at h
      | none => rw [hr] at hget; exact okValues_stop rs v hget
  · intro h
    rw [h, List.getElem?_eq_none (Nat.le_refl _)]

theorem firstFailure_error_iff (rs : List Result) (err : GoError) :
    firstFailure rs = .error err
      ↔ ∃ v, rs[(okValues rs).length]? = some (.ret v (some err)) := by
  rw [firstFailure_eq]
  cases hget : rs[(okValues rs).length]? with
  | none => simp
  | some r =>
    cases r with
    | panic e => simp
    | ret v e' =>
      cases e' with
      | none => exact absurd hget (okValues_stop rs v)
      | some e' => simp

theorem firstFailure_panic_iff (rs : List Result) (p : Panic) :
    firstFailure rs = .panic p
      ↔ ∃ e, p = .value e ∧ rs[(okValues rs).length]? = some (.panic e) := by
  rw [firstFailure_eq]
  cases hget : rs[(okValues rs).length]? with
  | none => simp
  | some r =>
    cases r with
    | panic e =>
      simp only [RowOutcome.panic.injEq, Option.some.injEq, Result.panic.injEq]
      constructor
      · intro h; exact ⟨e, h.symm, rfl⟩
      · rintro ⟨e', h1, h2⟩; rw [h1, h2]
    | ret v e' =>
      cases e' with
      | none => exact absurd hget (okValues_stop rs v)
      | some e' => simp

/-- An index below which every result is `(v, nil)` is at most the length of
`okValues`. -/
theorem le_okValues_length : ∀ (rs : List Result) (k : Nat),
    (∀ j, j < k → ∃ v, rs[j]? = some (.ret v none)) → k ≤ (okValues rs).length := by
  intro rs
  induction rs with
  | nil =>
    intro k h
    cases k with
    | zero => simp
    | succ k => obtain ⟨v, hv⟩ := h 0 (by omega); simp at hv
  | cons r rs ih =>
    intro k h
    cases k with
    | zero => simp
    | succ k =>
      obtain ⟨v, hv⟩ := h 0 (by omega)
      simp only [List.getElem?_cons_zero, Option.some.injEq] at hv
      subst hv
      simp only [okValues, List.length_cons, Nat.add_le_add_iff_right]
      apply ih
      intro j hj
      simpa using h (j + 1) (by omega)

/-- The index of a result that is not `(v, nil)` is at least the length of
`okValues`. -/
theorem okValues_length_le_of_failure (rs : List Result) (k : Nat) (r : Result)
    (hk : rs[k]? = some r) (hr : ∀ v, r ≠ .ret v none) : (okValues rs).length ≤ k := by
  by_contra hlt
  obtain ⟨v, _, h2⟩ := okValues_getElem? rs k (by omega)
  rw [hk] at h2
  exact hr v (Option.some.inj h2)

theorem getElem?_results (lib : Stdlib) (types : List GoString)
    (raws : List (Option GoString)) (j : Nat) (t : GoString) (r : Option GoString)
    (ht : types[j]? = some t) (hr : raws[j]? = some r) :
    (List.zipWith (convertValue lib) types raws)[j]? = some (convertValue lib t r) := by
  simp [List.getElem?_zipWith, ht, hr]

theorem length_results_le (lib : Stdlib) (types : List GoString)
    (raws : List (Option GoString)) :
    (okValues (List.zipWith (convertValue lib) types raws)).length ≤ raws.length := by
  have h := okValues_length_le (List.zipWith (convertValue lib) types raws)
  rw [List.length_zipWith] at h
  omega

theorem convertRow_eq_results (lib : Stdlib) (types : List GoString)
    (raws : List (Option GoString)) (ret : List Value)
    (hcols : raws.length ≤ types.length) (hret : raws.length ≤ ret.length) :
    convertRow lib (columnInfos types) (datumCells raws) ret
      = (okValues (List.zipWith (convertValue lib) types raws)
            ++ ret.drop (okValues (List.zipWith (convertValue lib) types raws)).length,
         firstFailure (List.zipWith (convertValue lib) types raws)) := by
  have hlen := length_results_le lib types raws
  have h := convertRowLoop_eq_results lib (columnInfos types) raws types 0 ret hcols
    (by
      intro j t _ ht
      simp only [columnInfos, Nat.zero_add, List.getElem?_map, ht, Option.map_some'])
    (by omega)
  simpa [convertRow] using h

/-- Every run of an adapter, with a typed column and an output slot for every
cell, writes the values of the leading error-free cells and ends the way the
first other cell decides. -/
theorem adapterRun_eq_results (lib : Stdlib) (types : List GoString)
    (raws : List (Option GoString)) (ret : List Value) (out : List Value × RowOutcome)
    (h : AdapterRun lib types raws ret out)
    (hcols : raws.length ≤ types.length) (hret : raws.length ≤ ret.length) :
    out = (okValues (List.zipWith (convertValue lib) types raws)
            ++ ret.drop (okValues (List.zipWith (convertValue lib) types raws)).length,
           firstFailure (List.zipWith (convertValue lib) types raws)) := by
  rcases h with h | ⟨cells, hcells, h⟩ | ⟨fields, hfields, h⟩
  · rw [h]; exact convertRow_eq_results lib types raws ret hcols hret
  · rw [h, ← convertRow_eq_results lib types raws ret hcols hret]
    simp only [convertRowFromTableInfo, convertRow, convertRowFromTableInfoLoop_eq]
    congr 1
    · simp [tableColumns, columnInfos]
    · rw [← hcells]; simp [datumCells, tableInfoRaw]
  · rw [h, ← convertRow_eq_results lib types raws ret hcols hret]
    simp only [convertRowFromCsv, convertRow, convertRowFromCsvLoop_eq]
    congr 1
    rw [← hfields]; simp [datumCells, csvRaw]


/-! ### C11: the output row is positional -/

/-- Claim C11: for each of the three adapters, with `n` typed columns, `n`
cells and an output row of `n` slots, whenever the call returns nil the
output row still has `n` entries, and entry `i` is the value `convertValue`
returns (with a nil error) for the type of column `i` and the null-normalized
raw value of cell `i`. -/
theorem adapter_row_is_positional (lib : Stdlib) (types : List GoString)
    (raws : List (Option GoString)) (ret : List Value) (out : List Value × RowOutcome)
    (h : AdapterRun lib types raws ret out)
    (hraws : raws.length = types.length) (hret : ret.length = types.length)
    (hok : out.2 = .ok) :
    out.1.length = types.length
    ∧ ∀ (i : Nat) (t : GoString) (r : Option GoString), types[i]? = some t → raws[i]? = some r →
        ∃ v, out.1[i]? = some v ∧ convertValue lib t r = .ret v none := by
  have hout := adapterRun_eq_results lib types raws ret out h (by omega) (by omega)
  have hzip : (List.zipWith (convertValue lib) types raws).length = types.length := by
    rw [List.length_zipWith]; omega
  rw [hout] at hok
  have hall := (firstFailure_ok_iff _).mp hok
  rw [hzip] at hall
  have hdrop : ret.drop (okValues (List.zipWith (convertValue lib) types raws)).length = [] := by
    rw [hall]; exact List.drop_eq_nil_of_le (by omega)
  rw [hdrop, List.append_nil] at hout
  rw [hout]
  refine ⟨hall, ?_⟩
  intro i t r ht hr
  have hi : i < types.length := (List.getElem?_eq_some.mp ht).1
  obtain ⟨v, h1, h2⟩ := okValues_getElem? (List.zipWith (convertValue lib) types raws) i
    (by omega)
  rw [getElem?_results lib types raws i t r ht hr] at h2
  exact ⟨v, h1, Option.some.inj h2⟩

theorem adapter_row_is_positional_witness :
    (convertRow rejectingLib (columnInfos [lit "bigint", lit "varchar"])
        (datumCells [some (lit "7"), none]) [.nil, .bool true]).2 = .ok
    ∧ (convertRow rejectingLib (columnInfos [lit "bigint", lit "varchar"])
        (datumCells [some (lit "7"), none]) [.nil, .bool true]).1.length = 2
    ∧ (∃ v, (convertRow rejectingLib (columnInfos [lit "bigint", lit "varchar"])
          (datumCells [some (lit "7"), none]) [.nil, .bool true]).1[0]? = some v
        ∧ convertValue rejectingLib (lit "bigint") (some (lit "7")) = .ret v none)
    ∧ (∃ v, (convertRowFromTableInfo rejectingLib (tableColumns [lit "bigint", lit "varchar"])
          [lit "7", lit "\\N"] [.nil, .bool true]).1[1]? = some v
        ∧ convertValue rejectingLib (lit "varchar") none = .ret v none)
    ∧ (∃ v, (convertRowFromCsv rejectingLib (columnInfos [lit "bigint", lit "varchar"])
          [⟨lit "7", false⟩, ⟨lit "x", true⟩] [.nil, .bool true]).1[0]? = some v
        ∧ convertValue rejectingLib (lit "bigint") (some (lit "7")) = .ret v none) :=
  ⟨by decide,
   (adapter_row_is_positional rejectingLib [lit "bigint", lit "varchar"]
      [some (lit "7"), none] [.nil, .bool true] _ (Or.inl rfl) rfl rfl (by decide)).1,
   (adapter_row_is_positional rejectingLib [lit "bigint", lit "varchar"]
      [some (lit "7"), none] [.nil, .bool true] _ (Or.inl rfl) rfl rfl (by decide)).2
      0 (lit "bigint") (some (lit "7")) rfl rfl,
   (adapter_row_is_positional rejectingLib [lit "bigint", lit "varchar"]
      [some (lit "7"), none] [.nil, .bool true] _
      (Or.inr (Or.inl ⟨[lit "7", lit "\\N"], by decide, rfl⟩)) rfl rfl (by decide)).2
      1 (lit "varchar") none rfl rfl,
   (adapter_row_is_positional rejectingLib [lit "bigint", lit "varchar"]
      [some (lit "7"), none] [.nil, .bool true] _
      (Or.inr (Or.inr ⟨[⟨lit "7", false⟩, ⟨lit "x", true⟩], by decide, rfl⟩)) rfl rfl
      (by decide)).2
      0 (lit "bigint") (some (lit "7")) rfl rfl⟩

/-! ### C12: what an error leaves in the output row -/

/-- On an error, an adapter run leaves in `out.1` the values of the cells
before the first cell that does not decode, followed by the entries `ret` had
from that index on. -/
theorem getElem?_out_of_le (lib : Stdlib) (types : List GoString)
    (raws : List (Option GoString)) (ret : List Value) (out : List Value × RowOutcome)
    (h : AdapterRun lib types raws ret out)
    (hcols : raws.length ≤ types.length) (hret : raws.length ≤ ret.length) (i : Nat)
    (hi : (okValues (List.zipWith (convertValue lib) types raws)).length ≤ i) :
    out.1[i]? = ret[i]? := by
  rw [adapterRun_eq_results lib types raws ret out h hcols hret]
  simp only
  rw [List.getElem?_append_right hi, List.getElem?_drop]
  congr 1
  omega

theorem length_out (lib : Stdlib) (types : List GoString)
    (raws : List (Option GoString)) (ret : List Value) (out : List Value × RowOutcome)
    (h : AdapterRun lib types raws ret out)
    (hcols : raws.length ≤ types.length) (hret : raws.length ≤ ret.length) :
    out.1.length = ret.length := by
  have hlen := length_results_le lib types raws
  rw [adapterRun_eq_results lib types raws ret out h hcols hret]
  simp only [List.length_append, List.length_drop]
  omega

/-- The cell at the length of `okValues`, when the run ends with the error
`err`: it is a cell of the row and `convertValue` returns `err` for it. -/
theorem failing_cell_of_error (lib : Stdlib) (types : List GoString)
    (raws : List (Option GoString)) (err : GoError)
    (herr : firstFailure (List.zipWith (convertValue lib) types raws) = .error err) :
    ∃ t r v, types[(okValues (List.zipWith (convertValue lib) types raws)).length]? = some t
      ∧ raws[(okValues (List.zipWith (convertValue lib) types raws)).length]? = some r
      ∧ convertValue lib t r = .ret v (some err) := by
  obtain ⟨v, hv⟩ := (firstFailure_error_iff _ err).mp herr
  rw [List.getElem?_zipWith] at hv
  cases ht : types[(okValues (List.zipWith (convertValue lib) types raws)).length]? with
  | none => rw [ht] at hv; simp at hv
  | some t =>
    cases hr : raws[(okValues (List.zipWith (convertValue lib) types raws)).length]? with
    | none => rw [ht, hr] at hv; simp at hv
    | some r =>
      rw [ht, hr] at hv
      exact ⟨t, r, v, rfl, rfl, by simpa using hv⟩

/-- Claim C12 as stated fails: `convertRow` on two `bigint` columns with the
cells `1` and `x` returns the error of the second cell after it has
overwritten the first entry of `ret` with the number 1. -/
theorem convertRow_error_leaves_partial_row :
    convertRow rejectingLib (columnInfos [lit "bigint", lit "bigint"])
        (datumCells [some (lit "1"), some (lit "x")]) [.nil, .nil]
      = ([.int64 1, .nil], .error (.numError ⟨lit "ParseInt", lit "x", .ErrSyntax⟩))
    ∧ (convertRow rejectingLib (columnInfos [lit "bigint", lit "bigint"])
        (datumCells [some (lit "1"), some (lit "x")]) [.nil, .nil]).1 ≠ [.nil, .nil] := by
  decide

/-- Claim C12, amended: for each of the three adapters, whenever the call
returns an error, the output row `ret` keeps its length; the error is that of
the first failing cell, at some index `k`; every entry below `k` has been
overwritten with the decoded value of the cell at its index (every cell below
`k` decodes without error); and all entries from `k` on are exactly as they
were before the call.  When the failing cell is the first one, `ret` is left
exactly as it was. -/
theorem adapter_error_keeps_row_from_failing_cell (lib : Stdlib) (types : List GoString)
    (raws : List (Option GoString)) (ret : List Value) (out : List Value × RowOutcome)
    (err : GoError) (h : AdapterRun lib types raws ret out)
    (hraws : raws.length = types.length) (hret : ret.length = types.length)
    (herr : out.2 = .error err) :
    out.1.length = ret.length
    ∧ ∃ (k : Nat) (t : GoString) (r : Option GoString) (v : Value),
        types[k]? = some t ∧ raws[k]? = some r
        ∧ convertValue lib t r = .ret v (some err)
        ∧ (∀ (j : Nat) (tj : GoString) (rj : Option GoString), j < k →
            types[j]? = some tj → raws[j]? = some rj →
            ∃ vj, convertValue lib tj rj = .ret vj none ∧ out.1[j]? = some vj)
        ∧ (∀ i : Nat, k ≤ i → out.1[i]? = ret[i]?)
        ∧ (k = 0 → out.1 = ret) := by
  have hout := adapterRun_eq_results lib types raws ret out h (by omega) (by omega)
  refine ⟨length_out lib types raws ret out h (by omega) (by omega), ?_⟩
  have herr2 : firstFailure (List.zipWith (convertValue lib) types raws) = .error err := by
    rw [hout] at herr; exact herr
  obtain ⟨t, r, v, ht, hr, hv⟩ := failing_cell_of_error lib types raws err herr2
  refine ⟨_, t, r, v, ht, hr, hv, ?_, ?_, ?_⟩
  · intro j tj rj hj htj hrj
    obtain ⟨vj, h1, h2⟩ := okValues_getElem? (List.zipWith (convertValue lib) types raws) j hj
    rw [getElem?_results lib types raws j tj rj htj hrj] at h2
    refine ⟨vj, Option.some.inj h2, ?_⟩
    rw [hout]
    simp only
    rw [List.getElem?_append_left hj]
    exact h1
  · intro i hi
    exact getElem?_out_of_le lib types raws ret out h (by omega) (by omega) i hi
  · intro hk
    rw [hout]
    simp only
    rw [List.length_eq_zero.mp hk]
    simp

theorem adapter_error_keeps_row_from_failing_cell_witness :
    (convertRow rejectingLib (columnInfos [lit "bigint", lit "bigint"])
        (datumCells [some (lit "1"), some (lit "x")]) [.nil, .bool true]).2
      = .error (.numError ⟨lit "ParseInt", lit "x", .ErrSyntax⟩)
    ∧ (convertRow rejectingLib (columnInfos [lit "bigint", lit "bigint"])
        (datumCells [some (lit "1"), some (lit "x")]) [.nil, .bool true]).1.length = 2
    ∧ (convertRow rejectingLib (columnInfos [lit "bigint", lit "bigint"])
        (datumCells [some (lit "1"), some (lit "x")]) [.nil, .bool true]).1[0]?
      = some (.int64 1)
    ∧ (convertRow rejectingLib (columnInfos [lit "bigint", lit "bigint"])
        (datumCells [some (lit "1"), some (lit "x")]) [.nil, .bool true]).1[1]?
      = some (.bool true) := by
  have herr : (convertRow rejectingLib (columnInfos [lit "bigint", lit "bigint"])
        (datumCells [some (lit "1"), some (lit "x")]) [.nil, .bool true]).2
      = .error (.numError ⟨lit "ParseInt", lit "x", .ErrSyntax⟩) := by decide
  obtain ⟨hlen, k, t, r, v, ht, hr, hv, hlow, hge, _⟩ :=
    adapter_error_keeps_row_from_failing_cell rejectingLib [lit "bigint", lit "bigint"]
      [some (lit "1"), some (lit "x")] [.nil, .bool true] _
      (.numError ⟨lit "ParseInt", lit "x", .ErrSyntax⟩) (Or.inl rfl) rfl rfl herr
  have hone : convertValue rejectingLib (lit "bigint") (some (lit "1"))
      = .ret (.int64 1) none := by decide
  have hk2 : k < 2 := (List.getElem?_eq_some.mp ht).1
  have hk : k = 1 := by
    rcases Nat.lt_or_ge k 1 with h0 | h0
    · have hz : k = 0 := by omega
      subst hz
      cases ht
      cases hr
      have hc : Result.ret (.int64 1) none
          = Result.ret v
              (some (.numError ⟨lit "ParseInt", lit "x", .ErrSyntax⟩)) :=
        hone.symm.trans hv
      cases hc
    · omega
  subst hk
  obtain ⟨vj, h1, h2⟩ := hlow 0 (lit "bigint") (some (lit "1")) (by decide) rfl rfl
  rw [hone] at h1
  cases h1
  exact ⟨herr, hlen, h2, hge 1 (Nat.le_refl _)⟩

/-! ### C13: the adapters differ in null normalization only -/

/-- Claim C13: for every column list, cell list and output row,
`convertRowFromTableInfo` on strings ends exactly as `convertRow` does on the
datums whose value is absent where the string is `\N` and the string
otherwise, and `convertRowFromCsv` on fields ends exactly as `convertRow` does
on the datums whose value is absent where `isNil` is set and `val` otherwise:
same final output row, same error, same panic. -/
theorem adapters_differ_in_null_normalization_only (lib : Stdlib) :
    (∀ (columns : List (Option Column)) (cells : List GoString) (ret : List Value),
      convertRowFromTableInfo lib columns cells ret
        = convertRow lib (columns.map (Option.map fun c => ColumnInfo.mk c.Type_))
            (cells.map fun s => some ⟨if s = lit "\\N" then none else some s⟩) ret)
    ∧ (∀ (columns : List (Option ColumnInfo)) (fields : List downloadField)
        (ret : List Value),
      convertRowFromCsv lib columns fields ret
        = convertRow lib columns
            (fields.map fun df => some ⟨if df.isNil then none else some df.val⟩) ret) :=
  ⟨fun columns cells ret => convertRowFromTableInfoLoop_eq lib columns cells 0 ret,
   fun columns fields ret => convertRowFromCsvLoop_eq lib columns fields 0 ret⟩

/-! ### C18: when an adapter returns an error -/

/-- Two lists of results that agree up to an index at or after the first
result that is not `(v, nil)` have the same leading values and the same first
failure. -/
theorem okValues_congr : ∀ (rs rs' : List Result) (k : Nat),
    (∀ j, j ≤ k → rs[j]? = rs'[j]?) → (okValues rs).length ≤ k →
    okValues rs = okValues rs' ∧ firstFailure rs = firstFailure rs' := by
  intro rs
  induction rs with
  | nil =>
    intro rs' k h _
    have h0 := h 0 (Nat.zero_le _)
    cases rs' with
    | nil => exact ⟨rfl, rfl⟩
    | cons a rs' => simp at h0
  | cons r rs ih =>
    intro rs' k h hk
    have h0 := h 0 (Nat.zero_le _)
    cases rs' with
    | nil => simp at h0
    | cons a rs' =>
      simp only [List.getElem?_cons_zero, Option.some.injEq] at h0
      subst h0
      cases r with
      | panic e => exact ⟨rfl, rfl⟩
      | ret v err =>
        cases err with
        | some e => exact ⟨rfl, rfl⟩
        | none =>
          simp only [okValues, List.length_cons] at hk
          cases k with
          | zero => omega
          | succ k =>
            obtain ⟨h1, h2⟩ := ih rs' k
              (fun j hj => by simpa using h (j + 1) (by omega)) (by omega)
            exact ⟨by simp only [okValues, h1], by simp only [firstFailure, h2]⟩

/-- Claim C18: for each of the three adapters, with as many typed columns and
output slots as cells, the call returns an error exactly when some cell fails
to decode and no cell of lower index panics; the error returned is the one
`convertValue` produces for the lowest-index failing cell (every cell below
it decodes without error); and the cells after that index are not decoded:
any adapter run on a row that agrees with this one up to the failing cell
ends in the same way, whatever its later cells are. -/
theorem adapter_error_iff_first_failure (lib : Stdlib) (types : List GoString)
    (raws : List (Option GoString)) (ret : List Value) (out : List Value × RowOutcome)
    (h : AdapterRun lib types raws ret out)
    (hraws : raws.length = types.length) (hret : ret.length = types.length) :
    ((∃ err, out.2 = .error err) ↔
      ∃ (k : Nat) (t : GoString) (r : Option GoString),
        types[k]? = some t ∧ raws[k]? = some r
        ∧ (∃ v err, convertValue lib t r = .ret v (some err))
        ∧ ∀ (j : Nat) (tj : GoString) (rj : Option GoString), j < k →
            types[j]? = some tj → raws[j]? = some rj →
            ∀ e, convertValue lib tj rj ≠ .panic e)
    ∧ (∀ err, out.2 = .error err →
      ∃ (k : Nat) (t : GoString) (r : Option GoString) (v : Value),
        types[k]? = some t ∧ raws[k]? = some r
        ∧ convertValue lib t r = .ret v (some err)
        ∧ (∀ (j : Nat) (tj : GoString) (rj : Option GoString), j < k →
            types[j]? = some tj → raws[j]? = some rj →
            ∃ vj, convertValue lib tj rj = .ret vj none)
        ∧ (∀ (types' : List GoString) (raws' : List (Option GoString))
            (out' : List Value × RowOutcome),
            AdapterRun lib types' raws' ret out' →
            raws'.length = types'.length → types'.length = types.length →
            (∀ j, j ≤ k → types'[j]? = types[j]? ∧ raws'[j]? = raws[j]?) →
            out' = out)) := by
  have hout := adapterRun_eq_results lib types raws ret out h (by omega) (by omega)
  have hsecond : ∀ err, out.2 = .error err →
      ∃ (k : Nat) (t : GoString) (r : Option GoString) (v : Value),
        types[k]? = some t ∧ raws[k]? = some r
        ∧ convertValue lib t r = .ret v (some err)
        ∧ (∀ (j : Nat) (tj : GoString) (rj : Option GoString), j < k →
            types[j]? = some tj → raws[j]? = some rj →
            ∃ vj, convertValue lib tj rj = .ret vj none)
        ∧ (∀ (types' : List GoString) (raws' : List (Option GoString))
            (out' : List Value × RowOutcome),
            AdapterRun lib types' raws' ret out' →
            raws'.length = types'.length → types'.length = types.length →
            (∀ j, j ≤ k → types'[j]? = types[j]? ∧ raws'[j]? = raws[j]?) →
            out' = out) := by
    intro err herr
    have herr2 : firstFailure (List.zipWith (convertValue lib) types raws) = .error err := by
      rw [hout] at herr; exact herr
    obtain ⟨t, r, v, ht, hr, hv⟩ := failing_cell_of_error lib types raws err herr2
    refine ⟨_, t, r, v, ht, hr, hv, ?_, ?_⟩
    · intro j tj rj hj htj hrj
      obtain ⟨vj, _, h2⟩ := okValues_getElem? _ j hj
      rw [getElem?_results lib types raws j tj rj htj hrj] at h2
      exact ⟨vj, Option.some.inj h2⟩
    · intro types' raws' out' h' hraws' htypes' hagree
      have hout' := adapterRun_eq_results lib types' raws' ret out' h' (by omega) (by omega)
      obtain ⟨h1, h2⟩ := okValues_congr (List.zipWith (convertValue lib) types raws)
        (List.zipWith (convertValue lib) types' raws') _
        (by
          intro j hj
          rw [List.getElem?_zipWith, List.getElem?_zipWith, (hagree j hj).1, (hagree j hj).2])
        (Nat.le_refl _)
      rw [hout, hout', ← h1, ← h2]
  refine ⟨⟨?_, ?_⟩, hsecond⟩
  · rintro ⟨err, herr⟩
    obtain ⟨k, t, r, v, ht, hr, hv, hlow, _⟩ := hsecond err herr
    refine ⟨k, t, r, ht, hr, ⟨v, err, hv⟩, ?_⟩
    intro j tj rj hj htj hrj e he
    obtain ⟨vj, hvj⟩ := hlow j tj rj hj htj hrj
    rw [hvj] at he
    cases he
  · rintro ⟨k, t, r, ht, hr, ⟨v, err, hv⟩, hlow⟩
    have hk : k < types.length := (List.getElem?_eq_some.mp ht).1
    have hrk := getElem?_results lib types raws k t r ht hr
    have hle := okValues_length_le_of_failure _ k _ hrk (by rw [hv]; intro w hw; cases hw)
    have hlt : (okValues (List.zipWith (convertValue lib) types raws)).length < types.length :=
      by omega
    obtain ⟨t0, ht0⟩ : ∃ t0, types[(okValues
        (List.zipWith (convertValue lib) types raws)).length]? = some t0 :=
      ⟨_, List.getElem?_eq_getElem hlt⟩
    obtain ⟨r0, hr0⟩ : ∃ r0, raws[(okValues
        (List.zipWith (convertValue lib) types raws)).length]? = some r0 :=
      ⟨_, List.getElem?_eq_getElem (by omega)⟩
    have hr0' := getElem?_results lib types raws _ t0 r0 ht0 hr0
    rw [hout]
    simp only
    cases hres : convertValue lib t0 r0 with
    | panic e =>
      exfalso
      by_cases heq : (okValues (List.zipWith (convertValue lib) types raws)).length = k
      · rw [heq] at ht0 hr0
        rw [ht] at ht0; rw [hr] at hr0
        cases ht0; cases hr0
        rw [hv] at hres; cases hres
      · exact hlow _ t0 r0 (by omega) ht0 hr0 e hres
    | ret w e' =>
      cases e' with
      | none =>
        rw [hres] at hr0'
        exact absurd hr0' (okValues_stop _ w)
      | some e' =>
        refine ⟨e', (firstFailure_error_iff _ e').mpr ⟨w, ?_⟩⟩
        rw [hr0', hres]

theorem adapter_error_iff_first_failure_witness :
    (∃ err, (convertRow rejectingLib (columnInfos [lit "bigint", lit "no such type"])
        (datumCells [some (lit "x"), some (lit "1")]) [.nil, .nil]).2 = .error err)
    ∧ (convertRowFromCsv rejectingLib (columnInfos [lit "bigint", lit "no such type"])
        [⟨lit "x", false⟩, ⟨lit "1", false⟩] [.nil, .nil]).2
      = .error (.numError ⟨lit "ParseInt", lit "x", .ErrSyntax⟩) :=
  ⟨(adapter_error_iff_first_failure rejectingLib [lit "bigint", lit "no such type"]
      [some (lit "x"), some (lit "1")] [.nil, .nil] _ (Or.inl rfl) rfl rfl).1.mpr
      ⟨0, lit "bigint", some (lit "x"), rfl, rfl,
        ⟨.int64 0, .numError ⟨lit "ParseInt", lit "x", .ErrSyntax⟩, by decide⟩,
        fun j _ _ hj _ _ _ _ => absurd hj (Nat.not_lt_zero j)⟩,
   by decide⟩

/-! ### C19: the output row after an error -/

/-- Claim C19: for each of the three adapters, when the call returns an error
and the first failing cell is at index `k`, every entry of the output row
below `k` holds the decoded value of the cell at its index and every entry
from `k` on is as it was before the call; so the number `strconv.ParseInt`
returns next to a range error is not written to entry `k`. -/
theorem adapter_error_row_contents (lib : Stdlib) (types : List GoString)
    (raws : List (Option GoString)) (ret : List Value) (out : List Value × RowOutcome)
    (err : GoError) (h : AdapterRun lib types raws ret out)
    (hraws : raws.length = types.length) (hret : ret.length = types.length)
    (herr : out.2 = .error err)
    (k : Nat) (t : GoString) (r : Option GoString) (v : Value) (e : GoError)
    (ht : types[k]? = some t) (hr : raws[k]? = some r)
    (hfail : convertValue lib t r = .ret v (some e))
    (hfirst : ∀ (j : Nat) (tj : GoString) (rj : Option GoString), j < k →
      types[j]? = some tj → raws[j]? = some rj →
      ∀ vj ej, convertValue lib tj rj ≠ .ret vj (some ej)) :
    (∀ (i : Nat) (ti : GoString) (ri : Option GoString), i < k →
        types[i]? = some ti → raws[i]? = some ri →
        ∃ vi, convertValue lib ti ri = .ret vi none ∧ out.1[i]? = some vi)
    ∧ (∀ i : Nat, k ≤ i → out.1[i]? = ret[i]?)
    ∧ out.1[k]? = ret[k]? ∧ e = err := by
  have hout := adapterRun_eq_results lib types raws ret out h (by omega) (by omega)
  have herr2 : firstFailure (List.zipWith (convertValue lib) types raws) = .error err := by
    rw [hout] at herr; exact herr
  obtain ⟨t0, r0, v0, ht0, hr0, hv0⟩ := failing_cell_of_error lib types raws err herr2
  have hrk := getElem?_results lib types raws k t r ht hr
  have hle := okValues_length_le_of_failure _ k _ hrk (by rw [hfail]; intro w hw; cases hw)
  have hk : (okValues (List.zipWith (convertValue lib) types raws)).length = k := by
    by_contra hne
    exact hfirst _ t0 r0 (by omega) ht0 hr0 v0 err hv0
  rw [hk] at ht0 hr0
  rw [ht] at ht0; rw [hr] at hr0
  cases ht0; cases hr0
  rw [hfail] at hv0
  have hge : ∀ i : Nat, k ≤ i → out.1[i]? = ret[i]? := fun i hi =>
    getElem?_out_of_le lib types raws ret out h (by omega) (by omega) i (by omega)
  refine ⟨?_, hge, hge k (Nat.le_refl _), by cases hv0; rfl⟩
  intro i ti ri hi hti hri
  obtain ⟨vi, h1, h2⟩ := okValues_getElem? (List.zipWith (convertValue lib) types raws) i
    (by omega)
  rw [getElem?_results lib types raws i ti ri hti hri] at h2
  refine ⟨vi, Option.some.inj h2, ?_⟩
  rw [hout]
  simp only
  rw [List.getElem?_append_left (by omega)]
  exact h1

theorem adapter_error_row_contents_witness :
    convertValue rejectingLib (lit "smallint") (some (lit "99999"))
      = .ret (.int64 32767) (some (.numError ⟨lit "ParseInt", lit "99999", .ErrRange⟩))
    ∧ (convertRow rejectingLib (columnInfos [lit "varchar", lit "smallint"])
        (datumCells [some (lit "a"), some (lit "99999")]) [.nil, .bool true]).1[1]?
      = [Value.nil, Value.bool true][1]?
    ∧ (∃ vi, convertValue rejectingLib (lit "varchar") (some (lit "a")) = .ret vi none
        ∧ (convertRow rejectingLib (columnInfos [lit "varchar", lit "smallint"])
          (datumCells [some (lit "a"), some (lit "99999")]) [.nil, .bool true]).1[0]?
        = some vi) :=
  have hw := adapter_error_row_contents rejectingLib [lit "varchar", lit "smallint"]
    [some (lit "a"), some (lit "99999")] [.nil, .bool true] _
    (.numError ⟨lit "ParseInt", lit "99999", .ErrRange⟩) (Or.inl rfl) rfl rfl (by decide)
    1 (lit "smallint") (some (lit "99999")) (.int64 32767)
    (.numError ⟨lit "ParseInt", lit "99999", .ErrRange⟩) rfl rfl (by decide)
    (by
      intro j tj rj hj htj hrj vj ej
      have hj0 : j = 0 := by omega
      subst hj0
      cases htj; cases hrj
      intro hcontra
      have hval : convertValue rejectingLib (lit "varchar") (some (lit "a"))
          = .ret (.string (lit "a")) none := by decide
      have hc : Result.ret (.string (lit "a")) none = Result.ret vj (some ej) :=
        hval.symm.trans hcontra
      cases hc)
  ⟨by decide, hw.2.2.1, hw.1 0 (lit "varchar") (some (lit "a")) (by decide) rfl rfl⟩

/-! ### C20: the adapters are total on rows of known types -/

/-- Claim C20: for each of the three adapters, when there are at least as many
typed columns and at least as many output slots as cells, and every column
whose cell is not null declares a type name `convertValue` has a case for,
the call does not panic (no index is out of range, no unknown type is met): it
returns an error, or it returns nil with the decoded value of every cell
written at the cell's index. -/
theorem adapter_total_on_known_types (lib : Stdlib) (types : List GoString)
    (raws : List (Option GoString)) (ret : List Value) (out : List Value × RowOutcome)
    (h : AdapterRun lib types raws ret out)
    (hcols : raws.length ≤ types.length) (hret : raws.length ≤ ret.length)
    (hknown : ∀ (i : Nat) (t val : GoString), types[i]? = some t →
      raws[i]? = some (some val) → normalizeType t ∈ knownTags) :
    (∀ p, out.2 ≠ .panic p)
    ∧ ((∃ err, out.2 = .error err)
      ∨ (out.2 = .ok
        ∧ ∀ (i : Nat) (t : GoString) (r : Option GoString),
            types[i]? = some t → raws[i]? = some r →
            ∃ v, convertValue lib t r = .ret v none ∧ out.1[i]? = some v)) := by
  have hout := adapterRun_eq_results lib types raws ret out h hcols hret
  have hnopanic : ∀ p, out.2 ≠ .panic p := by
    intro p hp
    rw [hout] at hp
    obtain ⟨e, _, he⟩ := (firstFailure_panic_iff _ p).mp hp
    rw [List.getElem?_zipWith] at he
    cases ht : types[(okValues (List.zipWith (convertValue lib) types raws)).length]? with
    | none => rw [ht] at he; simp at he
    | some t =>
      cases hr : raws[(okValues (List.zipWith (convertValue lib) types raws)).length]? with
      | none => rw [ht, hr] at he; simp at he
      | some r =>
        rw [ht, hr] at he
        simp only [Option.some.injEq] at he
        cases r with
        | none => rw [convertValue] at he; cases he
        | some val =>
          obtain ⟨v, err, hv⟩ := convertValue_known_type_returns lib t (some val)
            (hknown _ t val ht hr)
          rw [hv] at he
          cases he
  refine ⟨hnopanic, ?_⟩
  cases hres : out.2 with
  | panic p => exact absurd hres (hnopanic p)
  | error err => exact Or.inl ⟨err, rfl⟩
  | ok =>
    right
    refine ⟨rfl, ?_⟩
    rw [hout] at hres
    have hall := (firstFailure_ok_iff _).mp hres
    rw [List.length_zipWith] at hall
    intro i t r ht hr
    have hi : i < raws.length := (List.getElem?_eq_some.mp hr).1
    obtain ⟨v, h1, h2⟩ := okValues_getElem? (List.zipWith (convertValue lib) types raws) i
      (by omega)
    rw [getElem?_results lib types raws i t r ht hr] at h2
    refine ⟨v, Option.some.inj h2, ?_⟩
    rw [hout]
    simp only
    rw [List.getElem?_append_left (by omega)]
    exact h1

theorem adapter_total_on_known_types_witness :
    (∀ p, (convertRowFromTableInfo rejectingLib
        (tableColumns [lit "no such type", lit "bigint", lit "varchar"])
        [lit "\\N", lit "12"] [.nil, .nil, .bool true]).2 ≠ .panic p)
    ∧ convertRowFromTableInfo rejectingLib
        (tableColumns [lit "no such type", lit "bigint", lit "varchar"])
        [lit "\\N", lit "12"] [.nil, .nil, .bool true]
      = ([.nil, .int64 12, .bool true], .ok) :=
  ⟨(adapter_total_on_known_types rejectingLib [lit "no such type", lit "bigint", lit "varchar"]
      [none, some (lit "12")] [.nil, .nil, .bool true] _
      (Or.inr (Or.inl ⟨[lit "\\N", lit "12"], by decide, rfl⟩)) (by decide) (by decide)
      (by
        intro i t val ht hr
        have hi : i < 2 := (List.getElem?_eq_some.mp hr).1
        have h1 : i = 1 := by
          rcases Nat.lt_or_ge i 1 with h0 | h0
          · have : i = 0 := by omega
            subst this
            cases hr
          · omega
        subst h1
        cases ht
        decide)).1,
   by decide⟩

/-! ### C16: what the errors of the numeric tags and of boolean carry -/

/-- Claim C16 as stated fails under tag `smallint` on the text `99999`: the
error returned is the `*strconv.NumError` of `ParseInt`, made of the function
name `ParseInt`, the text `99999` and the range sentinel; the type tag
`smallint` occurs nowhere in it. -/
theorem smallint_error_lacks_type_tag :
    convertValue rejectingLib (lit "smallint") (some (lit "99999"))
      = .ret (.int64 32767) (some (.numError ⟨lit "ParseInt", lit "99999", .ErrRange⟩))
    ∧ ¬ (GoError.numError ⟨lit "ParseInt", lit "99999", .ErrRange⟩).carries (lit "smallint") := by
  refine ⟨by decide, ?_⟩
  simp only [GoError.carries, strconv.ErrKind.text]
  decide

theorem integerTags_tag (tag : GoString) (w : Nat) (h : (tag, w) ∈ integerTags) :
    tag ∈ [lit "smallint", lit "integer", lit "int", lit "bigint"] := by
  simp only [integerTags, List.mem_cons, Prod.mk.injEq, List.mem_singleton, List.not_mem_nil,
    or_false] at h
  simp only [List.mem_cons, List.mem_singleton, List.not_mem_nil, or_false]
  tauto

/-- Claim C16, amended: under every numeric tag and under tag `boolean`, the
error `convertValue` returns for a present text that fails to decode carries
the offending raw text (for the floating-point tags: provided
`strconv.ParseFloat` puts its input in the `Num` field of its error, as it is
documented to).  Under `boolean` the message also names the tag `boolean`.
Under the numeric tags the error is the `*strconv.NumError` of the parsing
function, returned as it is: it names `ParseInt` (or is whatever `ParseFloat`
returns), not the type tag. -/
theorem numeric_and_boolean_errors_carry_text (lib : Stdlib)
    (hlib : ∀ s bitSize e, (lib.ParseFloat s bitSize).2 = some e → e.Num = s)
    (tag v : GoString) (val : Value) (err : GoError)
    (htag : tag ∈ numericAndBooleanTags)
    (hfail : convertValue lib tag (some v) = .ret val (some err)) :
    err.carries v
    ∧ (tag = lit "boolean" →
        err = .errorf (lit "cannot parse '" ++ v ++ lit "' as boolean")
        ∧ err.carries (lit "boolean"))
    ∧ ((∃ w, (tag, w) ∈ integerTags) → ∃ k, err = .numError ⟨lit "ParseInt", v, k⟩)
    ∧ (tag ∈ [lit "float", lit "double", lit "decimal"] →
        ∃ e bitSize, err = .numError e ∧ (lib.ParseFloat v bitSize).2 = some e) := by
  have hint : ∀ w, (tag, w) ∈ integerTags → ∃ k, err = .numError ⟨lit "ParseInt", v, k⟩ := by
    intro w hw
    rw [convertValue_integer_eq lib tag w v hw] at hfail
    simp only [Result.ret.injEq, Option.map_eq_some'] at hfail
    obtain ⟨_, e, he, rfl⟩ := hfail
    obtain ⟨h1, h2⟩ := ParseInt_some v w (strconv.ParseInt v w).1 e (by rw [← he])
    refine ⟨e.Err, ?_⟩
    obtain ⟨f, n, k⟩ := e
    simp only at h1 h2
    rw [h1, h2]
    rfl
  have hflt : ∀ bitSize,
      convertValue lib tag (some v)
        = .ret (.float64 (lib.ParseFloat v bitSize).1)
            ((lib.ParseFloat v bitSize).2.map .numError) →
      ∃ e, err = .numError e ∧ (lib.ParseFloat v bitSize).2 = some e ∧ e.Num = v := by
    intro bitSize heq
    rw [heq] at hfail
    simp only [Result.ret.injEq, Option.map_eq_some'] at hfail
    obtain ⟨_, e, he, rfl⟩ := hfail
    exact ⟨e, rfl, he, hlib v bitSize e he⟩
  have hbool : tag = lit "boolean" →
      err = .errorf (lit "cannot parse '" ++ v ++ lit "' as boolean") := by
    intro hb
    subst hb
    rw [boolean_case_eq] at hfail
    by_cases h1 : v = lit "true"
    · rw [if_pos h1] at hfail; cases hfail
    · rw [if_neg h1] at hfail
      by_cases h2 : v = lit "false"
      · rw [if_pos h2] at hfail; cases hfail
      · rw [if_neg h2] at hfail
        cases hfail
        rfl
  simp only [numericAndBooleanTags, List.mem_cons, List.mem_singleton, List.not_mem_nil,
    or_false] at htag
  have hcarryInt : ∀ k, (GoError.numError ⟨lit "ParseInt", v, k⟩).carries v :=
    fun k => Or.inr (Or.inl List.infix_rfl)
  have hcarryBool :
      (GoError.errorf (lit "cannot parse '" ++ v ++ lit "' as boolean")).carries v :=
    ⟨lit "cannot parse '", lit "' as boolean", rfl⟩
  have hcarryTag :
      (GoError.errorf (lit "cannot parse '" ++ v ++ lit "' as boolean")).carries
        (lit "boolean") :=
    ⟨lit "cannot parse '" ++ v ++ lit "' as ", [], by
      simp only [List.append_nil, List.append_assoc]; rfl⟩
  rcases htag with rfl | rfl | rfl | rfl | rfl | rfl | rfl | rfl
  · obtain ⟨k, rfl⟩ := hint 16 (by decide)
    exact ⟨hcarryInt k, fun h => absurd h (by decide), fun _ => ⟨k, rfl⟩,
      fun h => absurd h (by decide)⟩
  · obtain ⟨k, rfl⟩ := hint 32 (by decide)
    exact ⟨hcarryInt k, fun h => absurd h (by decide), fun _ => ⟨k, rfl⟩,
      fun h => absurd h (by decide)⟩
  · obtain ⟨k, rfl⟩ := hint 32 (by decide)
    exact ⟨hcarryInt k, fun h => absurd h (by decide), fun _ => ⟨k, rfl⟩,
      fun h => absurd h (by decide)⟩
  · obtain ⟨k, rfl⟩ := hint 64 (by decide)
    exact ⟨hcarryInt k, fun h => absurd h (by decide), fun _ => ⟨k, rfl⟩,
      fun h => absurd h (by decide)⟩
  · obtain ⟨e, rfl, he, hnum⟩ := hflt 32 rfl
    refine ⟨Or.inr (Or.inl (by rw [hnum])),
      fun h => absurd h (by decide), ?_, fun _ => ⟨e, 32, rfl, he⟩⟩
    rintro ⟨w, hw⟩
    exact absurd (integerTags_tag _ w hw) (by decide)
  · obtain ⟨e, rfl, he, hnum⟩ := hflt 64 rfl
    refine ⟨Or.inr (Or.inl (by rw [hnum])),
      fun h => absurd h (by decide), ?_, fun _ => ⟨e, 64, rfl, he⟩⟩
    rintro ⟨w, hw⟩
    exact absurd (integerTags_tag _ w hw) (by decide)
  · obtain ⟨e, rfl, he, hnum⟩ := hflt 64 rfl
    refine ⟨Or.inr (Or.inl (by rw [hnum])),
      fun h => absurd h (by decide), ?_, fun _ => ⟨e, 64, rfl, he⟩⟩
    rintro ⟨w, hw⟩
    exact absurd (integerTags_tag _ w hw) (by decide)
  · have hb := hbool rfl
    subst hb
    refine ⟨hcarryBool, fun _ => ⟨rfl, hcarryTag⟩, ?_, fun h => absurd h (by decide)⟩
    rintro ⟨w, hw⟩
    exact absurd (integerTags_tag _ w hw) (by decide)

theorem numeric_and_boolean_errors_carry_text_witness :
    (GoError.numError ⟨lit "ParseInt", lit "99999", .ErrRange⟩).carries (lit "99999")
    ∧ (GoError.errorf (lit "cannot parse 'yes' as boolean")).carries (lit "yes")
    ∧ (GoError.errorf (lit "cannot parse 'yes' as boolean")).carries (lit "boolean") :=
  have hlib : ∀ s bitSize e, (rejectingLib.ParseFloat s bitSize).2 = some e → e.Num = s := by
    intro s bitSize e he
    simp only [rejectingLib, Option.some.injEq] at he
    rw [← he]
  ⟨(numeric_and_boolean_errors_carry_text rejectingLib hlib (lit "smallint") (lit "99999")
      (.int64 32767) (.numError ⟨lit "ParseInt", lit "99999", .ErrRange⟩)
      (by decide) (by decide)).1,
   (numeric_and_boolean_errors_carry_text rejectingLib hlib (lit "boolean") (lit "yes")
      .nil (.errorf (lit "cannot parse 'yes' as boolean")) (by decide) (by decide)).1,
   ((numeric_and_boolean_errors_carry_text rejectingLib hlib (lit "boolean") (lit "yes")
      .nil (.errorf (lit "cannot parse 'yes' as boolean")) (by decide) (by decide)).2.1
      rfl).2⟩

/-! ### Digits, as `time.Parse` reads them -/

theorem toNat_digitByte (k : Nat) : (digitByte k).toNat = 48 + k % 10 := by
  have h : 48 + k % 10 < 256 := by omega
  simp only [digitByte, UInt8.toNat, UInt8.ofNat, Fin.ofNat]
  exact Nat.mod_eq_of_lt h

theorem digitByte_ne (k : Nat) (b : UInt8) (hb : b.toNat < 48 ∨ 57 < b.toNat) :
    digitByte k ≠ b := by
  intro h
  have := toNat_digitByte k
  rw [h] at this
  omega

theorem isDigit_zero_digitByte (k : Nat) (rest : GoString) :
    time.isDigit (digitByte k :: rest) 0 = true := by
  simp only [time.isDigit, List.getElem?_cons_zero, toNat_digitByte, decide_eq_true_eq]
  omega

theorem isDigit_one_digitByte (c : UInt8) (k : Nat) (rest : GoString) :
    time.isDigit (c :: digitByte k :: rest) 1 = true := by
  simp only [time.isDigit, List.getElem?_cons_succ, List.getElem?_cons_zero, toNat_digitByte,
    decide_eq_true_eq]
  omega

/-- Two digits are read by `getnum` as the number they denote, fixed width
or not. -/
theorem getnum_pad2 (n : Nat) (hn : n < 100) (rest : GoString) (fixed : Bool) :
    time.getnum (pad2 n ++ rest) fixed = some ((n : Int), rest) := by
  simp only [pad2, List.cons_append, List.nil_append, time.getnum, isDigit_zero_digitByte,
    isDigit_one_digitByte, Bool.true_eq_false, if_false, time.byteAt, List.getD_cons_zero,
    List.getD_cons_succ, toNat_digitByte, List.drop_succ_cons, List.drop_zero, Option.some.injEq,
    Prod.mk.injEq, and_true]
  omega

/-- The value a run of digits denotes, started from `x`. -/
theorem leadingInt_digits : ∀ (ks : List Nat) (x : Nat) (rest : GoString),
    ks.foldl (fun a k => 10 * a + k % 10) x ≤ 2 ^ 62 →
    (∀ c, rest.head? = some c → c.toNat < 48 ∨ 57 < c.toNat) →
    time.leadingInt (ks.map digitByte ++ rest) x
      = some (ks.foldl (fun a k => 10 * a + k % 10) x, rest) := by
  intro ks
  induction ks with
  | nil =>
    intro x rest _ hrest
    cases rest with
    | nil => rfl
    | cons c rest =>
      have hc := hrest c rfl
      simp only [List.map_nil, List.nil_append, time.leadingInt, List.foldl_nil]
      rw [if_pos (by omega)]
  | cons k ks ih =>
    intro x rest hle hrest
    have hmono : ∀ (l : List Nat) (a : Nat), a ≤ l.foldl (fun a k => 10 * a + k % 10) a := by
      intro l
      induction l with
      | nil => intro a; exact Nat.le_refl _
      | cons b l ihl => intro a; have := ihl (10 * a + b % 10); simp only [List.foldl_cons]; omega
    simp only [List.foldl_cons] at hle ⊢
    have h1 := hmono ks (10 * x + k % 10)
    have hmod : k % 10 < 10 := Nat.mod_lt _ (by omega)
    simp only [List.map_cons, List.cons_append, time.leadingInt, toNat_digitByte]
    rw [if_neg (by omega), if_neg (by omega)]
    have hx1 : (x * 10 + (48 + k % 10) - 48) % 2 ^ 64 = 10 * x + k % 10 := by omega
    simp only [hx1]
    rw [if_neg (by omega)]
    exact ih _ rest hle hrest

/-- A run of at least one digit is read by `atoi` as the number it denotes. -/
theorem atoi_digits (k : Nat) (ks : List Nat)
    (hle : (k :: ks).foldl (fun a k => 10 * a + k % 10) 0 ≤ 2 ^ 62) :
    time.atoi ((k :: ks).map digitByte)
      = some (((k :: ks).foldl (fun a k => 10 * a + k % 10) 0 : Nat) : Int) := by
  have hlead := leadingInt_digits (k :: ks) 0 [] hle (by intro c hc; cases hc)
  simp only [List.append_nil] at hlead
  have h45 : digitByte k ≠ 45 := digitByte_ne k 45 (by decide)
  have h43 : digitByte k ≠ 43 := digitByte_ne k 43 (by decide)
  simp only [time.atoi, List.map_cons, List.head?_cons, Option.some.injEq, h45, h43, or_self,
    if_false, decide_False]
  simp only [List.map_cons] at hlead
  rw [hlead]
  simp only [ne_eq, not_true_eq_false, if_false, Bool.false_eq_true, strconv.int64OfUint64]
  generalize List.foldl (fun a k => 10 * a + k % 10) 0 (k :: ks) = v at hle ⊢
  have hv : v % 2 ^ 64 = v := by omega
  rw [hv, if_pos (by omega)]

theorem atoi_pad4 (y : Nat) (hy : y ≤ 9999) : time.atoi (pad4 y) = some (y : Int) := by
  have h := atoi_digits (y / 1000) [y / 100, y / 10, y] (by
    simp only [List.foldl_cons, List.foldl_nil]; omega)
  simp only [List.map_cons, List.map_nil, List.foldl_cons, List.foldl_nil] at h
  have hval : 10 * (10 * (10 * (10 * 0 + y / 1000 % 10) + y / 100 % 10) + y / 10 % 10) + y % 10
      = y := by omega
  rw [hval] at h
  exact h

/-! ### The elements of the layouts on formatted text -/

theorem parseElem_year (y : Nat) (hy : y ≤ 9999) (next : Option time.Std) (f : time.Fields)
    (rest : GoString) :
    time.parseElem .stdLongYear next f (pad4 y ++ rest)
      = .ok { f with year := (y : Int) } rest := by
  have htake : (pad4 y ++ rest).take 4 = pad4 y := List.take_left' rfl
  have hdrop : (pad4 y ++ rest).drop 4 = rest := List.drop_left' rfl
  have hlen : ¬ (pad4 y ++ rest).length < 4 := by
    simp only [pad4, List.cons_append, List.length_cons]; omega
  have hdig : time.isDigit (pad4 y ++ rest) 0 = true := isDigit_zero_digitByte _ _
  simp only [time.parseElem, hlen, hdig, Bool.true_eq_false, or_self, if_false, htake, hdrop,
    atoi_pad4 y hy]

theorem parseElem_month (m : Nat) (hm : 1 ≤ m ∧ m ≤ 12) (next : Option time.Std)
    (f : time.Fields) (rest : GoString) :
    time.parseElem .stdZeroMonth next f (pad2 m ++ rest)
      = .ok { f with month := (m : Int) } rest := by
  simp only [time.parseElem, getnum_pad2 m (by omega)]
  rw [if_neg (by omega)]

theorem parseElem_day (d : Nat) (hd : d < 100) (next : Option time.Std)
    (f : time.Fields) (rest : GoString) :
    time.parseElem .stdZeroDay next f (pad2 d ++ rest)
      = .ok { f with day := (d : Int) } rest := by
  simp only [time.parseElem, getnum_pad2 d hd]

theorem parseElem_hour (h : Nat) (hh : h < 24) (next : Option time.Std)
    (f : time.Fields) (rest : GoString) :
    time.parseElem .stdHour next f (pad2 h ++ rest)
      = .ok { f with hour := (h : Int) } rest := by
  simp only [time.parseElem, getnum_pad2 h (by omega)]
  rw [if_neg (by omega)]

theorem parseElem_minute (mi : Nat) (hmi : mi < 60) (next : Option time.Std)
    (f : time.Fields) (rest : GoString) :
    time.parseElem .stdZeroMinute next f (pad2 mi ++ rest)
      = .ok { f with min := (mi : Int) } rest := by
  simp only [time.parseElem, getnum_pad2 mi (by omega)]
  rw [if_neg (by omega)]

theorem parseElem_second (s : Nat) (hs : s < 60) (f : time.Fields) (rest : GoString) :
    time.parseElem .stdZeroSecond (some .stdFracSecond9) f (pad2 s ++ rest)
      = .ok { f with sec := (s : Int) } rest := by
  simp only [time.parseElem, getnum_pad2 s (by omega)]
  rw [if_neg (by omega)]
  simp

theorem skip_nil (value : GoString) : time.skip value [] = (value, true) := rfl

theorem skip_byte (c : UInt8) (hc : c ≠ 32) (rest : GoString) :
    time.skip (c :: rest) [c] = (rest, true) := by
  simp [time.skip, time.skipLoop, hc]

theorem skip_space (k : Nat) (rest : GoString) :
    time.skip (32 :: digitByte k :: rest) [32] = (digitByte k :: rest, true) := by
  have h : digitByte k ≠ 32 := digitByte_ne k 32 (by decide)
  simp [time.skip, time.skipLoop, time.cutspace, h]

/-- The three elements of the layout `2006-01-02`, at the start of any longer
layout, read a formatted date into the year, the month and the day. -/
theorem parseLoop_date (alayout avalue : GoString) (more : List (GoString × time.Std))
    (y m d : Nat) (hy : y ≤ 9999) (hm : 1 ≤ m ∧ m ≤ 12) (hd : d < 100) (f : time.Fields)
    (rest : GoString) :
    time.parseLoop alayout avalue (time.dateChunks ++ more) f (formatDate y m d ++ rest)
      = time.parseLoop alayout avalue more
          { f with year := (y : Int), month := (m : Int), day := (d : Int) } rest := by
  have h45 : (45 : UInt8) ≠ 32 := by decide
  have hl : lit "-" = [45] := rfl
  simp only [time.dateChunks, hl, formatDate, List.cons_append, List.nil_append,
    List.append_assoc, time.parseLoop, skip_nil, Bool.true_eq_false, if_false,
    parseElem_year y hy, skip_byte 45 h45, parseElem_month m hm, parseElem_day d hd]
  rfl

theorem daysIn_eq (y m : Nat) (hm : 1 ≤ m ∧ m ≤ 12) :
    time.daysIn (m : Int) (y : Int) = (daysInMonth y m : Int) := by
  have hleap : time.isLeap (y : Int) = true ↔ (y % 4 = 0 ∧ (y % 100 ≠ 0 ∨ y % 400 = 0)) := by
    simp only [time.isLeap, Bool.and_eq_true, Bool.or_eq_true, decide_eq_true_eq, ne_eq]
    omega
  obtain ⟨h1, h2⟩ := hm
  interval_cases m <;>
    simp [time.daysIn, daysInMonth, time.daysBefore, hleap]

/-! ### C14: the date round trip -/

theorem Parse_formatDate (host : time.Host) (y m d : Nat) (hy : y ≤ 9999)
    (hm : 1 ≤ m ∧ m ≤ 12) (hd : 1 ≤ d ∧ d ≤ daysInMonth y m) :
    time.Parse host DateLayout (formatDate y m d) = (time.Date y m d 0 0 0 0, none) := by
  have hd31 : daysInMonth y m ≤ 31 := by
    unfold daysInMonth; split_ifs <;> omega
  have hloop := parseLoop_date (lit "2006-01-02") (formatDate y m d) [] y m d hy hm (by omega)
    time.Fields.init []
  simp only [List.append_nil] at hloop
  have hlay : DateLayout = lit "2006-01-02" := rfl
  have hdays : ¬ ((d : Int) < 1 ∨ (d : Int) > (daysInMonth y m : Int)) := by omega
  unfold time.Parse
  rw [if_pos hlay]
  unfold time.parseChunks
  rw [hlay, hloop]
  simp only [time.parseLoop, ne_eq, not_true_eq_false, if_false, time.parseFinish,
    time.Fields.init, daysIn_eq y m hm, hdays, Bool.false_eq_true]

/-- Claim C14: for every valid calendar date (year 0000 to 9999, month 1 to
12, day valid for the month and year), the date written as zero-padded
`YYYY-MM-DD` is decoded by `convertValue` under tag `date`, on every host, to
that date at midnight UTC, with no error. -/
theorem date_round_trip (parseFloat : GoString → Nat → Float64 × Option strconv.NumError)
    (host : time.Host) (y m d : Nat) (hy : y ≤ 9999) (hm : 1 ≤ m ∧ m ≤ 12)
    (hd : 1 ≤ d ∧ d ≤ daysInMonth y m) :
    convertValue (goLib parseFloat host) (lit "date") (some (formatDate y m d))
      = .ret (.time (time.Date y m d 0 0 0 0)) none := by
  have h : convertValue (goLib parseFloat host) (lit "date") (some (formatDate y m d))
      = .ret (.time (time.Parse host DateLayout (formatDate y m d)).1)
          ((time.Parse host DateLayout (formatDate y m d)).2.map .parseError) := rfl
  rw [h, Parse_formatDate host y m d hy hm hd]
  rfl

theorem date_round_trip_witness :
    formatDate 2024 2 29 = lit "2024-02-29"
    ∧ convertValue (goLib rejectingLib.ParseFloat utcHost) (lit "date")
        (some (formatDate 2024 2 29))
      = .ret (.time ⟨1709164800, 0, .UTC⟩) none :=
  ⟨by decide,
   date_round_trip rejectingLib.ParseFloat utcHost 2024 2 29 (by decide) (by decide)
     (by decide)⟩

/-! ### C15: the timestamp round trip -/

theorem countDigits_digits (ks : List Nat) : time.countDigits (ks.map digitByte) = ks.length := by
  induction ks with
  | nil => rfl
  | cons k ks ih =>
    have hmod : k % 10 < 10 := Nat.mod_lt _ (by omega)
    simp only [List.map_cons, time.countDigits, toNat_digitByte, ih, List.length_cons]
    rw [if_pos (by omega)]
    omega

/-- A period followed by one to nine digits, at the end of the value, is read
by the fractional-second element as that many nanoseconds. -/
theorem parseElem_fraction_digits (k : Nat) (ks : List Nat) (hlen : (k :: ks).length ≤ 9)
    (next : Option time.Std) (f : time.Fields) :
    time.parseElem .stdFracSecond9 next f (46 :: (k :: ks).map digitByte)
      = .ok { f with nsec := (((k :: ks).foldl (fun a k => 10 * a + k % 10) 0 : Nat) : Int)
                * 10 ^ (9 - (k :: ks).length) } [] := by
  have hbound : ∀ (l : List Nat) (a : Nat), l.length ≤ 9 → a < 10 ^ (9 - l.length) →
      l.foldl (fun a k => 10 * a + k % 10) a < 10 ^ 9 := by
    intro l
    induction l with
    | nil => intro a _ ha; simpa using ha
    | cons b l ihl =>
      intro a hl ha
      simp only [List.length_cons] at hl
      simp only [List.foldl_cons]
      apply ihl _ (by omega)
      have hb : b % 10 < 10 := Nat.mod_lt _ (by omega)
      have hpow : 10 ^ (9 - l.length) = 10 * 10 ^ (9 - (l.length + 1)) := by
        rw [← Nat.pow_succ']
        congr 1
        omega
      simp only [List.length_cons] at ha
      rw [hpow]
      omega
  have hfold := hbound (k :: ks) 0 hlen (Nat.pos_pow_of_pos _ (by omega))
  have hatoi := atoi_digits k ks (by omega)
  have hdig : time.isDigit (46 :: (k :: ks).map digitByte) 1 = true := by
    simp only [List.map_cons]; exact isDigit_one_digitByte _ _ _
  have hcount : time.countDigits ((46 :: (k :: ks).map digitByte).drop 1) = (k :: ks).length := by
    simp only [List.drop_succ_cons, List.drop_zero]
    exact countDigits_digits (k :: ks)
  have hl : ¬ (46 :: (k :: ks).map digitByte).length < 2 := by
    simp only [List.length_cons, List.length_map]; omega
  have hn10 : ¬ 1 + (k :: ks).length > 10 := by omega
  have htake : ((46 :: (k :: ks).map digitByte).take (1 + (k :: ks).length)).drop 1
      = (k :: ks).map digitByte := by
    rw [Nat.add_comm, List.take_succ_cons, List.drop_succ_cons, List.drop_zero]
    exact List.take_of_length_le (by simp)
  have hdrop : (46 :: (k :: ks).map digitByte).drop (1 + (k :: ks).length) = [] := by
    apply List.drop_eq_nil_of_le
    simp only [List.length_cons, List.length_map]; omega
  have hnonneg : ¬ (((k :: ks).foldl (fun a k => 10 * a + k % 10) 0 : Nat) : Int) < 0 := by
    omega
  have hexp : 10 - (1 + (k :: ks).length) = 9 - (k :: ks).length := by omega
  have hhead : (46 :: (k :: ks).map digitByte).head?.map time.commaOrPeriod = some true := by
    simp only [List.head?_cons, Option.map_some', Option.some.injEq]
    decide
  simp only [time.parseElem, hl, hhead, hdig, ne_eq, not_true_eq_false, Bool.true_eq_false,
    or_self, if_false, hcount, time.parseNanoseconds, hn10, htake, hatoi, hnonneg, hdrop, hexp]

/-- The fractional-second element reads the fraction of a formatted
timestamp as that many milliseconds. -/
theorem parseElem_formatFraction (ms : Nat) (hms : ms < 1000) (next : Option time.Std)
    (f : time.Fields) (hf : f.nsec = 0) :
    time.parseElem .stdFracSecond9 next f (formatFraction ms)
      = .ok { f with nsec := (ms : Int) * 1000000 } [] := by
  unfold formatFraction
  by_cases h0 : ms = 0
  · subst h0
    obtain ⟨a, b, c, d, e, g, n, z, zn⟩ := f
    simp only at hf
    subst hf
    simp [time.parseElem]
  · rw [if_neg h0]
    by_cases h1 : ms % 10 ≠ 0
    · rw [if_pos h1]
      have h := parseElem_fraction_digits (ms / 100) [ms / 10, ms] (by simp) next f
      simp only [List.map_cons, List.map_nil, List.foldl_cons, List.foldl_nil,
        List.length_cons, List.length_nil, Nat.reduceAdd, Nat.reduceSub, Nat.zero_add,
        Nat.mul_zero, Int.reducePow] at h
      have hval : ((10 * (10 * (ms / 100 % 10) + ms / 10 % 10) + ms % 10 : Nat) : Int)
          = (ms : Int) := by omega
      rw [hval] at h
      exact h
    · rw [if_neg h1]
      by_cases h2 : ms % 100 ≠ 0
      · rw [if_pos h2]
        have h := parseElem_fraction_digits (ms / 100) [ms / 10] (by simp) next f
        simp only [List.map_cons, List.map_nil, List.foldl_cons, List.foldl_nil,
          List.length_cons, List.length_nil, Nat.reduceAdd, Nat.reduceSub, Nat.zero_add,
          Nat.mul_zero, Int.reducePow] at h
        have hval : ((10 * (ms / 100 % 10) + ms / 10 % 10 : Nat) : Int) * 10000000
            = (ms : Int) * 1000000 := by omega
        rw [hval] at h
        exact h
      · rw [if_neg h2]
        have h := parseElem_fraction_digits (ms / 100) [] (by simp) next f
        simp only [List.map_cons, List.map_nil, List.foldl_cons, List.foldl_nil,
          List.length_cons, List.length_nil, Nat.reduceAdd, Nat.reduceSub, Nat.zero_add,
          Nat.mul_zero, Int.reducePow] at h
        have hval : ((ms / 100 % 10 : Nat) : Int) * 100000000 = (ms : Int) * 1000000 := by
          omega
        rw [hval] at h
        exact h

theorem Parse_formatTimestamp (host : time.Host) (y m d h mi s ms : Nat) (hy : y ≤ 9999)
    (hm : 1 ≤ m ∧ m ≤ 12) (hd : 1 ≤ d ∧ d ≤ daysInMonth y m)
    (hh : h < 24) (hmi : mi < 60) (hs : s < 60) (hms : ms < 1000) :
    time.Parse host TimestampLayout (formatTimestamp y m d h mi s ms)
      = (time.Date y m d h mi s ((ms : Int) * 1000000), none) := by
  have hd31 : daysInMonth y m ≤ 31 := by
    unfold daysInMonth; split_ifs <;> omega
  have hdays : ¬ ((d : Int) < 1 ∨ (d : Int) > (daysInMonth y m : Int)) := by omega
  have hlay : TimestampLayout = lit "2006-01-02 15:04:05.999" := rfl
  have hne : lit "2006-01-02 15:04:05.999" ≠ lit "2006-01-02" := by decide
  have hsp : lit " " = [32] := rfl
  have hco : lit ":" = [58] := rfl
  have h58 : (58 : UInt8) ≠ 32 := by decide
  have hval : formatTimestamp y m d h mi s ms
      = formatDate y m d ++ (32 :: (pad2 h ++ (58 :: (pad2 mi
          ++ (58 :: (pad2 s ++ formatFraction ms)))))) := by
    simp [formatTimestamp]
  have hskip : ∀ rest, time.skip (32 :: (pad2 h ++ rest)) [32] = (pad2 h ++ rest, true) :=
    fun rest => skip_space (h / 10) _
  have hloop := parseLoop_date (lit "2006-01-02 15:04:05.999")
    (formatTimestamp y m d h mi s ms)
    [(lit " ", .stdHour), (lit ":", .stdZeroMinute), (lit ":", .stdZeroSecond),
      ([], .stdFracSecond9)] y m d hy hm (by omega) time.Fields.init
    (32 :: (pad2 h ++ (58 :: (pad2 mi ++ (58 :: (pad2 s ++ formatFraction ms))))))
  rw [← hval] at hloop
  unfold time.Parse
  rw [hlay, if_neg hne, if_pos rfl]
  unfold time.parseChunks
  have hchunks : time.timestampChunks = time.dateChunks
      ++ [(lit " ", .stdHour), (lit ":", .stdZeroMinute), (lit ":", .stdZeroSecond),
        ([], .stdFracSecond9)] := rfl
  rw [hchunks]
  rw [hloop]
  simp only [time.parseLoop, hsp, hco, hskip, Bool.true_eq_false,
    if_false, parseElem_hour h hh, skip_byte 58 h58, parseElem_minute mi hmi,
    List.head?_cons, Option.map_some', parseElem_second s hs, skip_nil,
    parseElem_formatFraction ms hms, ne_eq, not_true_eq_false,
    time.parseFinish, time.Fields.init, daysIn_eq y m hm, hdays, Bool.false_eq_true]

/-- Claim C15: for every UTC date-time (year 0000 to 9999) whose sub-second
part is a whole number `ms` of milliseconds, the text
`YYYY-MM-DD HH:MM:SS` followed by the optional fraction (trailing zeros
dropped) is decoded by `convertValue` under tag `timestamp`, on every host,
to that date-time in UTC, with no error. -/
theorem timestamp_round_trip
    (parseFloat : GoString → Nat → Float64 × Option strconv.NumError)
    (host : time.Host) (y m d h mi s ms : Nat) (hy : y ≤ 9999)
    (hm : 1 ≤ m ∧ m ≤ 12) (hd : 1 ≤ d ∧ d ≤ daysInMonth y m)
    (hh : h < 24) (hmi : mi < 60) (hs : s < 60) (hms : ms < 1000) :
    convertValue (goLib parseFloat host) (lit "timestamp")
        (some (formatTimestamp y m d h mi s ms))
      = .ret (.time (time.Date y m d h mi s ((ms : Int) * 1000000))) none := by
  have hconv : convertValue (goLib parseFloat host) (lit "timestamp")
        (some (formatTimestamp y m d h mi s ms))
      = .ret (.time (time.Parse host TimestampLayout (formatTimestamp y m d h mi s ms)).1)
          ((time.Parse host TimestampLayout (formatTimestamp y m d h mi s ms)).2.map
            .parseError) := rfl
  rw [hconv, Parse_formatTimestamp host y m d h mi s ms hy hm hd hh hmi hs hms]
  rfl

theorem timestamp_round_trip_witness :
    formatTimestamp 2021 12 31 23 59 59 120 = lit "2021-12-31 23:59:59.12"
    ∧ convertValue (goLib rejectingLib.ParseFloat utcHost) (lit "timestamp")
        (some (formatTimestamp 2021 12 31 23 59 59 120))
      = .ret (.time ⟨1640995199, 120000000, .UTC⟩) none :=
  ⟨by decide,
   timestamp_round_trip rejectingLib.ParseFloat utcHost 2021 12 31 23 59 59 120
     (by decide) (by decide) (by decide) (by decide) (by decide) (by decide) (by decide)⟩

/-! ### C17: what `convertValue` depends on -/

/-- Claim C17 as stated fails under tag `timestamp with time zone`: the same
two arguments give one instant on a host whose zone data knows the
abbreviation `PST` (the offset -8h is applied, the time is in `time.Local`)
and another on a host that does not know it (offset 0 in a made-up zone
`PST`). -/
theorem time_zone_result_depends_on_host :
    convertValue (goLib rejectingLib.ParseFloat utcHost) (lit "timestamp with time zone")
        (some (lit "2020-01-01 00:00:00 PST"))
      = .ret (.time ⟨1577836800, 0, .Fixed (lit "PST") 0⟩) none
    ∧ convertValue (goLib rejectingLib.ParseFloat losAngelesHost)
        (lit "timestamp with time zone") (some (lit "2020-01-01 00:00:00 PST"))
      = .ret (.time ⟨1577865600, 0, .Local⟩) none := by
  decide

/-- An element other than the zone abbreviation leaves `zoneName` and `z` as
they are. -/
theorem parseElem_zone (std : time.Std) (hstd : std ≠ .stdTZ) (next : Option time.Std)
    (f f1 : time.Fields) (value rest : GoString)
    (h : time.parseElem std next f value = .ok f1 rest) :
    f1.zoneName = f.zoneName ∧ f1.zUTC = f.zUTC := by
  cases std with
  | stdTZ => exact absurd rfl hstd
  | stdLongYear =>
    simp only [time.parseElem] at h
    split at h
    · cases h
    · split at h
      · cases h
      · cases h; exact ⟨rfl, rfl⟩
  | stdZeroMonth =>
    simp only [time.parseElem] at h
    split at h
    · cases h
    · split at h
      · cases h
      · cases h; exact ⟨rfl, rfl⟩
  | stdZeroDay =>
    simp only [time.parseElem] at h
    split at h
    · cases h
    · cases h; exact ⟨rfl, rfl⟩
  | stdHour =>
    simp only [time.parseElem] at h
    split at h
    · cases h
    · split at h
      · cases h
      · cases h; exact ⟨rfl, rfl⟩
  | stdZeroMinute =>
    simp only [time.parseElem] at h
    split at h
    · cases h
    · split at h
      · cases h
      · cases h; exact ⟨rfl, rfl⟩
  | stdZeroSecond =>
    simp only [time.parseElem] at h
    split at h
    · cases h
    · split at h
      · cases h
      · split at h
        · split at h
          · cases h
          · cases h
          · cases h; exact ⟨rfl, rfl⟩
        · cases h; exact ⟨rfl, rfl⟩
  | stdFracSecond9 =>
    simp only [time.parseElem] at h
    split at h
    · cases h; exact ⟨rfl, rfl⟩
    · split at h
      · cases h
      · cases h
      · cases h; exact ⟨rfl, rfl⟩

theorem parseLoop_zone (alayout avalue : GoString) :
    ∀ (chunks : List (GoString × time.Std)) (f f1 : time.Fields) (value : GoString),
      (∀ c ∈ chunks, c.2 ≠ .stdTZ) →
      time.parseLoop alayout avalue chunks f value = .ok f1 →
      f1.zoneName = f.zoneName ∧ f1.zUTC = f.zUTC := by
  intro chunks
  induction chunks with
  | nil =>
    intro f f1 value _ h
    simp only [time.parseLoop] at h
    split at h
    · cases h
    · cases h; exact ⟨rfl, rfl⟩
  | cons c chunks ih =>
    intro f f1 value hno h
    obtain ⟨pfx, std⟩ := c
    simp only [time.parseLoop] at h
    split at h
    · cases h
    · split at h
      · cases h
      · cases h
      · rename_i f2 value2 helem
        obtain ⟨h1, h2⟩ := parseElem_zone std (hno (pfx, std) (List.mem_cons_self _ _)) _ _ _ _ _
          helem
        obtain ⟨h3, h4⟩ := ih f2 f1 value2 (fun c hc => hno c (List.mem_cons_of_mem _ hc)) h
        exact ⟨h3.trans h1, h4.trans h2⟩

/-- On a layout without a zone element `time.Parse` does not consult the
host. -/
theorem parseChunks_host (host1 host2 : time.Host) (alayout avalue : GoString)
    (chunks : List (GoString × time.Std)) (hno : ∀ c ∈ chunks, c.2 ≠ .stdTZ) :
    time.parseChunks host1 alayout avalue chunks
      = time.parseChunks host2 alayout avalue chunks := by
  unfold time.parseChunks
  cases hloop : time.parseLoop alayout avalue chunks time.Fields.init avalue with
  | error e => rfl
  | ok f =>
    obtain ⟨h1, h2⟩ := parseLoop_zone alayout avalue chunks _ f avalue hno hloop
    have hz : f.zoneName = [] := h1
    have hu : f.zUTC = false := h2
    simp only [time.parseFinish, hz, hu, ne_eq, not_true_eq_false, if_false,
      Bool.false_eq_true]

theorem Parse_host_date (host1 host2 : time.Host) (value : GoString) :
    time.Parse host1 DateLayout value = time.Parse host2 DateLayout value := by
  have hlay : DateLayout = lit "2006-01-02" := rfl
  unfold time.Parse
  rw [if_pos hlay, if_pos hlay]
  exact parseChunks_host host1 host2 _ _ _ (by decide)

theorem Parse_host_timestamp (host1 host2 : time.Host) (value : GoString) :
    time.Parse host1 TimestampLayout value = time.Parse host2 TimestampLayout value := by
  have hlay : TimestampLayout = lit "2006-01-02 15:04:05.999" := rfl
  have hne : ¬ TimestampLayout = lit "2006-01-02" := by decide
  unfold time.Parse
  rw [if_neg hne, if_neg hne, if_pos hlay, if_pos hlay]
  exact parseChunks_host host1 host2 _ _ _ (by decide)

/-- Claim C17, amended: `convertValue` is a function of its two arguments and
of nothing else, except under tag `timestamp with time zone`, where the
result also depends on the zone data of the host (through `time.Parse`): for
every other type name and every raw value, `convertValue` returns the same
result on any two hosts. -/
theorem convertValue_host_independent
    (parseFloat : GoString → Nat → Float64 × Option strconv.NumError)
    (host1 host2 : time.Host) (athenaType : GoString) (rawValue : Option GoString)
    (h : normalizeType athenaType ≠ lit "timestamp with time zone") :
    convertValue (goLib parseFloat host1) athenaType rawValue
      = convertValue (goLib parseFloat host2) athenaType rawValue := by
  cases rawValue with
  | none => rfl
  | some val =>
    simp only [convertValue, goLib, h, if_false, Parse_host_date host1 host2 val,
      Parse_host_timestamp host1 host2 val]

theorem convertValue_host_independent_witness :
    normalizeType (lit "timestamp") ≠ lit "timestamp with time zone"
    ∧ convertValue (goLib rejectingLib.ParseFloat utcHost) (lit "timestamp")
        (some (lit "2020-01-01 00:00:00"))
      = convertValue (goLib rejectingLib.ParseFloat losAngelesHost) (lit "timestamp")
        (some (lit "2020-01-01 00:00:00")) :=
  ⟨by decide,
   convertValue_host_independent rejectingLib.ParseFloat utcHost losAngelesHost
     (lit "timestamp") (some (lit "2020-01-01 00:00:00")) (by decide)⟩

end Athena
